import Mathlib

/-!
Verification of the iFlow package decomposition engine
(`EnhancedIFlowChunker` in `Injection pipeline/app.py`).

The Python code is shallowly embedded: XML documents become an inductive
element tree, `lxml` XPath queries become list filters keyed by namespace
URI and local name, Python dicts become association lists with
insert-replaces semantics, and the two external effectful collaborators
(the `lxml` parser `etree.fromstring` and the GPT-backed description
generator `EmbeddingGenerator.generate_description`) are passed in as
function parameters.  All other logic is translated directly from the
source.
-/

namespace IFlowChunker

/-! ## Python string / path helpers

Everything is implemented by structural recursion over character
lists so that concrete runs reduce inside the kernel. -/

/-- Substring test: models Python's `needle in hay`. -/
def containsSub (hay needle : String) : Bool :=
  (List.range (hay.data.length + 1)).any (fun i => needle.data.isPrefixOf (hay.data.drop i))

/-- Models `str.lower()` (ASCII case folding). -/
def lowerStr (s : String) : String :=
  String.mk (s.data.map Char.toLower)

/-- Models `str.strip()`. -/
def pyStrip (s : String) : String :=
  String.mk (((s.data.dropWhile Char.isWhitespace).reverse.dropWhile Char.isWhitespace).reverse)

/-- Models `s.endswith(suf)`. -/
def endsWithStr (s suf : String) : Bool :=
  suf.data.isSuffixOf s.data

/-- Models `s.startswith(pre)`. -/
def startsWithStr (s pre : String) : Bool :=
  pre.data.isPrefixOf s.data

/-- Models `sep.join(parts)` / `'\n'.join(...)`. -/
def joinSep (sep : String) : List String → String
  | [] => ""
  | [s] => s
  | s :: rest => s ++ sep ++ joinSep sep rest

/-- One pass of `str.replace(pat, sub)`: left-to-right, non-overlapping.
Fuel is the input length (every step consumes at least one character
for a non-empty pattern). -/
def replaceAux (needle repl : List Char) : Nat → List Char → List Char
  | 0, _ => []
  | _, [] => []
  | Nat.succ fuel, c :: cs =>
    if needle.isPrefixOf (c :: cs) then
      repl ++ replaceAux needle repl fuel ((c :: cs).drop needle.length)
    else c :: replaceAux needle repl fuel cs

/-- Models Python `s.replace(pat, sub)` for non-empty patterns. -/
def strReplace (s pat sub : String) : String :=
  if pat = "" then s else String.mk (replaceAux pat.data sub.data s.data.length s.data)

/-- Models `pathlib.Path(p).name`: the final `/`-separated component. -/
def pyName (p : String) : String :=
  String.mk ((p.data.reverse.takeWhile (fun c => c != '/')).reverse)

/-- Models `pathlib.Path(p).suffix`: the extension of the final component
(`name[i:]` for the last dot at position `0 < i < len - 1`, else `""`). -/
def pySuffix (p : String) : String :=
  let name := pyName p
  let cs := name.data
  match cs.reverse.findIdx? (fun c => c == '.') with
  | none => ""
  | some j =>
    let i := cs.length - 1 - j
    if 0 < i ∧ i < cs.length - 1 then String.mk (cs.drop i) else ""

/-- Models `pathlib.Path(p).stem`: final component minus its suffix. -/
def pyStem (p : String) : String :=
  let name := pyName p
  String.mk (name.data.take (name.data.length - (pySuffix p).data.length))

/-- Python truthiness fallback `v or d` for an optional string
(`None` and `""` are falsy). -/
def pyOr (v : Option String) (d : String) : String :=
  match v with
  | some s => if s = "" then d else s
  | none => d

/-- Python `str.title()`: a letter is uppercased after a non-letter,
lowercased after a letter. -/
def pyTitle (s : String) : String :=
  String.mk (s.data.foldl (fun st c =>
    if c.isAlpha then
      (st.1 ++ [if st.2 then c.toLower else c.toUpper], true)
    else (st.1 ++ [c], false)) (([] : List Char), false)).1

/-! ## Python dict as an association list

Assignment `d[k] = v` replaces the value at an existing key in place
(Python 3.7 dicts keep insertion position); lookup takes the (unique)
binding of the key. -/

/-- Lookup, models `d.get(k)` / `d[k]`. -/
def dictGet {α : Type} : List (String × α) → String → Option α
  | [], _ => none
  | p :: rest, k => if p.1 == k then some p.2 else dictGet rest k

/-- Models `k in d`. -/
def dictContains {α : Type} (d : List (String × α)) (k : String) : Bool :=
  (dictGet d k).isSome

/-- Models `d.get(k, dflt)`. -/
def dictGetD {α : Type} (d : List (String × α)) (k : String) (dflt : α) : α :=
  (dictGet d k).getD dflt

/-- Models `d[k] = v`. -/
def dictInsert {α : Type} : List (String × α) → String → α → List (String × α)
  | [], k, v => [(k, v)]
  | p :: rest, k, v => if p.1 == k then (k, v) :: rest else p :: dictInsert rest k v

/-! ## XML element trees

Models the `lxml.etree` element tree produced by `etree.fromstring`.
An element carries its namespace URI, the prefix the document bound it to
(used only when serializing), its local tag name, attributes, text and
children.  Namespace declarations are not modelled as attributes. -/

inductive XElem : Type where
  | mk (ns : String) (pfx : String) (tag : String)
       (attrs : List (String × String)) (text : String) (children : List XElem)

def XElem.ns : XElem → String
  | .mk n _ _ _ _ _ => n

def XElem.pfx : XElem → String
  | .mk _ p _ _ _ _ => p

def XElem.tag : XElem → String
  | .mk _ _ t _ _ _ => t

def XElem.attrs : XElem → List (String × String)
  | .mk _ _ _ a _ _ => a

def XElem.text : XElem → String
  | .mk _ _ _ _ t _ => t

def XElem.children : XElem → List XElem
  | .mk _ _ _ _ _ c => c

/-- Models lxml's `element.get(key)`. -/
def XElem.getAttr (e : XElem) (k : String) : Option String :=
  dictGet e.attrs k

/-- Models lxml's `element.get(key, dflt)`. -/
def XElem.getAttrD (e : XElem) (k d : String) : String :=
  (e.getAttr k).getD d

/-- Models lxml's `element.tag`, which is `"{uri}local"` for a
namespaced element and the bare local name otherwise. -/
def XElem.lxmlTag (e : XElem) : String :=
  if e.ns = "" then e.tag else "\x7b" ++ e.ns ++ "\x7d" ++ e.tag

/-! All elements of the subtree in document order, the element itself
first (models `element.iter()` and the node set of `//`);
`allElemsList` is the same walk over a forest. -/
mutual

def XElem.allElems : XElem → List XElem
  | .mk n p t a tx children =>
    .mk n p t a tx children :: allElemsList children

def allElemsList : List XElem → List XElem
  | [] => []
  | e :: es => XElem.allElems e ++ allElemsList es

end

/-- Models the XPath query `//pfx:tag` : all elements of the document
whose namespace URI is the one `pfx` is bound to and whose local name is
`tag`, in document order. -/
def findAllNs (uri tag : String) (root : XElem) : List XElem :=
  root.allElems.filter (fun e => e.ns == uri && e.tag == tag)

def bpmnModelNs : String := "http://www.omg.org/spec/BPMN/20100524/MODEL"
def bpmndiNs : String := "http://www.omg.org/spec/BPMN/20100524/DI"
def iflNs : String := "http:///com.sap.ifl.model/Ifl.xsd"

/-! ## Serialization and content hashing

`etree.tostring(el, encoding='unicode', pretty_print=True)` is modelled
by a deterministic renderer: qualified tags (`prefix:local`), attributes
in stored order, two-space indentation, one trailing newline.
Namespace declarations and attribute-value escaping are not modelled.
`hashlib.sha256(x.encode()).hexdigest()[:16]` is modelled by
`sha256Hex16`, an abstract deterministic 16-hex-character digest of the
content (no claim depends on concrete digest values, only on the
signature being a pure function of the serialized content). -/

def XElem.qualTag (e : XElem) : String :=
  if e.pfx = "" then e.tag else e.pfx ++ ":" ++ e.tag

def renderAttrs (attrs : List (String × String)) : String :=
  String.join (attrs.map (fun kv => " " ++ kv.1 ++ "=\"" ++ kv.2 ++ "\""))

def indentSp (n : Nat) : String := String.mk (List.replicate (2 * n) ' ')

mutual

def XElem.render : Nat → XElem → String
  | ind, .mk n p t a tx children =>
    let q := XElem.qualTag (.mk n p t a tx children)
    let at_ := renderAttrs a
    if children.isEmpty then
      if tx = "" then indentSp ind ++ "<" ++ q ++ at_ ++ "/>"
      else indentSp ind ++ "<" ++ q ++ at_ ++ ">" ++ tx ++ "</" ++ q ++ ">"
    else
      indentSp ind ++ "<" ++ q ++ at_ ++ ">" ++ "\n" ++
        renderList (ind + 1) children ++
        indentSp ind ++ "</" ++ q ++ ">"

def renderList : Nat → List XElem → String
  | _, [] => ""
  | ind, e :: es => XElem.render ind e ++ "\n" ++ renderList ind es

end

/-- Models `etree.tostring(e, encoding='unicode', pretty_print=True)`
(pretty-printed output carries a final newline). -/
def etree_tostring (e : XElem) : String :=
  e.render 0 ++ "\n"

def hexDigitChar (n : Nat) : Char :=
  if n < 10 then Char.ofNat (48 + n) else Char.ofNat (87 + n)

/-- Abstract stand-in for `hashlib.sha256(s.encode()).hexdigest()[:16]`:
a fixed, pure 16-hex-character digest of the string. -/
def sha256Hex16 (s : String) : String :=
  let h := s.data.foldl (fun h c => (h * 131 + c.toNat + 17) % (2 ^ 64)) 99194853094755497
  String.mk ((List.range 16).map (fun i => hexDigitChar (h / 16 ^ (15 - i) % 16)))

/-! ## Output data model

The Python chunker emits plain dicts whose key sets differ by chunk
kind.  They are modelled by one record; fields a given kind does not set
keep their defaults. -/

structure FlowData where
  id : Option String
  sourceRef : Option String
  targetRef : Option String
  name : String
deriving DecidableEq, Repr

structure RelScript where
  relation : String
  language_hint : String := ""
  content : String := ""
  length : Nat := 0
  file_name : String := ""
  file_type : String := ""
  chunk_id : String := ""
deriving DecidableEq, Repr

structure Chunk where
  id : String
  file_name : String
  file_type : String
  component_id : String := ""
  component_type : String := ""
  activity_type : String := ""
  content : String := ""
  complete_bpmn_xml : String := ""
  description : String := ""
  properties : List (String × String) := []
  related_scripts : List RelScript := []
  unresolved_script_refs : List String := []
  participant : String := ""
  sequence_flows : List FlowData := []
  connections : List String := []
  participant_source : String := ""
  participant_target : String := ""
  signature : String := ""
deriving DecidableEq, Repr

/-- An entry of `self.script_index`. -/
structure SIEntry where
  file_name : String
  chunk_id : Option String
deriving DecidableEq, Repr

abbrev ScriptIndex := List (String × SIEntry)

/-- One file of the extracted package.  `path` is the path relative to
the package root (`os.path.relpath` of the walked path is modelled as
the identity), `size` is `os.path.getsize`, `content` the text read with
utf-8. -/
structure PkgFile where
  path : String
  size : Nat
  content : String
deriving DecidableEq, Repr

/-! ## File discovery (`_discover_all_files`) -/

inductive Bucket : Type where
  | main_iflow | groovy_scripts | xsd_files | message_mappings | wsdl_files
  | properties_files | xslt_files | json_files | manifest_files
deriving DecidableEq, Repr

def bucketName : Bucket → String
  | .main_iflow => "main_iflow"
  | .groovy_scripts => "groovy_scripts"
  | .xsd_files => "xsd_files"
  | .message_mappings => "message_mappings"
  | .wsdl_files => "wsdl_files"
  | .properties_files => "properties_files"
  | .xslt_files => "xslt_files"
  | .json_files => "json_files"
  | .manifest_files => "manifest_files"

/-- Iteration order of the `all_files` dict. -/
def bucketOrder : List Bucket :=
  [.main_iflow, .groovy_scripts, .xsd_files, .message_mappings, .wsdl_files,
   .properties_files, .xslt_files, .json_files, .manifest_files]

/-- `exclude_patterns` of `_discover_all_files`: a file whose *name*
contains any of these as a substring is dropped before classification. -/
def excludePatterns : List String :=
  ["_chunks.json", ".env", ".py", ".md", ".txt", ".pyc", "__pycache__"]

/-- Per-file classification of `_discover_all_files`: the exclusion
check runs first, then the `if/elif` chain on the lowered suffix.
`None` means the file is never discovered. -/
def classifyFile (f : PkgFile) : Option Bucket :=
  let name := pyName f.path
  if excludePatterns.any (fun pat => containsSub name pat) then none
  else
    let ext := lowerStr (pySuffix name)
    if ext == ".iflw" then some .main_iflow
    else if ext == ".groovy" || ext == ".gsh" then some .groovy_scripts
    else if ext == ".xsd" then some .xsd_files
    else if ext == ".mmap" then some .message_mappings
    else if ext == ".wsdl" then some .wsdl_files
    else if ext == ".properties" || ext == ".prop" || ext == ".propdef" then some .properties_files
    else if ext == ".xsl" || ext == ".xslt" then some .xslt_files
    else if ext == ".json" then (if f.size ≤ 10000 then some .json_files else none)
    else if name == "MANIFEST.MF" then some .manifest_files
    else none

/-- The bucket lists of `_discover_all_files`, in walk order. -/
def discoverBucket (files : List PkgFile) (b : Bucket) : List PkgFile :=
  files.filter (fun f => classifyFile f == some b)

/-- `all_files` as the ordered list of (bucket, files) pairs. -/
def allFilesBuckets (files : List PkgFile) : List (Bucket × List PkgFile) :=
  bucketOrder.map (fun b => (b, discoverBucket files b))

/-- `_find_main_iflow`: first file of the `main_iflow` bucket. -/
def findMainIflow (files : List PkgFile) : Option PkgFile :=
  (discoverBucket files .main_iflow).head?

/-! ## Script index (`_build_script_index`, `_index_script_file`,
`_update_script_index_with_chunk`) -/

/-- `_index_script_file`: store under the lowered key. -/
def indexScriptFile (idx : ScriptIndex) (key relative : String) (chunkId : Option String) : ScriptIndex :=
  dictInsert idx (lowerStr key) ⟨relative, chunkId⟩

/-- `_build_script_index` over the `groovy_scripts` bucket: each script
path is indexed under its lowered file name and its lowered stem. -/
def buildScriptIndexFrom (idx : ScriptIndex) : List String → ScriptIndex
  | [] => idx
  | p :: ps =>
    buildScriptIndexFrom
      (indexScriptFile (indexScriptFile idx (pyName p) p none) (pyStem p) p none) ps

def buildScriptIndex (scriptPaths : List String) : ScriptIndex :=
  buildScriptIndexFrom [] scriptPaths

/-- `_update_script_index_with_chunk`: backfill the chunk id for the
name/stem keys of an emitted script chunk, when present. -/
def updateScriptIndexWithChunk (idx : ScriptIndex) (c : Chunk) : ScriptIndex :=
  let step := fun (i : ScriptIndex) (k : String) =>
    match dictGet i k with
    | some e => dictInsert i k { e with chunk_id := some c.id }
    | none => i
  step (step idx (lowerStr (pyName c.file_name))) (lowerStr (pyStem c.file_name))

/-! ## Script reference resolution (`_resolve_component_script_files`) -/

def scriptHintWords : List String := ["script", "groovy", "gsh"]

def isWordChar (c : Char) : Bool :=
  c.isAlpha || c.isDigit || c == '_' || c == '-' || c == '/'

/-- One attempt of the regex `[A-Za-z0-9_/\-]+\.(?:groovy|gsh)` at the
head of the input: the greedy word-character run, a dot, then one of the
two extensions.  Returns the match and the rest of the input. -/
def matchScriptAt (cs : List Char) : Option (List Char × List Char) :=
  let run := cs.takeWhile isWordChar
  if run.isEmpty then none
  else
    match cs.drop run.length with
    | '.' :: rest2 =>
      if "groovy".data.isPrefixOf rest2 then
        some (run ++ '.' :: "groovy".data, rest2.drop 6)
      else if "gsh".data.isPrefixOf rest2 then
        some (run ++ '.' :: "gsh".data, rest2.drop 3)
      else none
    | _ => none

/-- `re.findall(r"[A-Za-z0-9_/\-]+\.(?:groovy|gsh)", s)`: left-to-right
non-overlapping matches.  Each step consumes at least one character, so
the string length is enough fuel. -/
def scanScriptRefsAux : Nat → List Char → List String
  | 0, _ => []
  | _, [] => []
  | Nat.succ fuel, c :: cs =>
    match matchScriptAt (c :: cs) with
    | some (m, rest) => String.mk m :: scanScriptRefsAux fuel rest
    | none => scanScriptRefsAux fuel cs

def scanScriptRefs (s : String) : List String :=
  scanScriptRefsAux s.data.length s.data

/-- Candidate collection of `_resolve_component_script_files`: property
values ending in a script extension, values of keys hinting at scripts,
and (when the markup is non-empty, by Python truthiness) filename-shaped
substrings of the component markup. -/
def collectScriptCandidates (props : List (String × String)) (componentXml : String) : List String :=
  let fromProps := props.foldl (fun acc kv =>
    let val := pyStrip kv.2
    if val ≠ "" then
      if endsWithStr (lowerStr val) ".groovy" || endsWithStr (lowerStr val) ".gsh" then acc ++ [val]
      else if scriptHintWords.any (fun h => containsSub (lowerStr kv.1) h) then acc ++ [val]
      else acc
    else acc) []
  if componentXml ≠ "" then fromProps ++ scanScriptRefs componentXml else fromProps

/-- The per-candidate lookup
`self.script_index.get(lc) or self.script_index.get(stem)` (index
entries are non-empty dicts, hence always truthy). -/
def scriptLookup (idx : ScriptIndex) (cand : String) : Option SIEntry :=
  let lc := lowerStr cand
  match dictGet idx lc with
  | some e => some e
  | none => dictGet idx (pyStem lc)

/-- `_resolve_component_script_files`: deduplicate candidates
case-insensitively, look each up, and split into resolved references
and verbatim unresolved candidates. -/
def resolveComponentScriptFiles (idx : ScriptIndex) (props : List (String × String))
    (componentXml : String) : List RelScript × List String :=
  let step := fun (st : List RelScript × List String × List String) (cand : String) =>
    let lc := lowerStr cand
    if lc ∈ st.2.2 then st
    else
      let seen2 := st.2.2 ++ [lc]
      match scriptLookup idx cand with
      | some e =>
        (st.1 ++ [{ relation := "file", file_name := e.file_name,
                    file_type := "groovy_scripts", chunk_id := e.chunk_id.getD "" }],
         st.2.1, seen2)
      | none => (st.1, st.2.1 ++ [cand], seen2)
  let r := (collectScriptCandidates props componentXml).foldl step ([], [], [])
  (r.1, r.2.1)

/-! ## Component extraction -/

/-- The recognized BPMN component element types
(`component_types` in `_extract_all_component_ids`). -/
def componentTypes : List String :=
  ["startEvent", "endEvent", "serviceTask", "callActivity",
   "scriptTask", "userTask", "manualTask", "receiveTask", "sendTask",
   "exclusiveGateway", "parallelGateway", "inclusiveGateway",
   "eventBasedGateway", "participant", "boundaryEvent",
   "intermediateCatchEvent", "intermediateThrowEvent"]

/-- The two namespace aliases of the chunker's `namespaces` maps.  Both
`bpmn2` and `bpmn` are bound to the same model namespace URI, so a loop
`for ns in ['bpmn2', 'bpmn']` evaluates the identical XPath node set
twice. -/
def nsAliases : List String := ["bpmn2", "bpmn"]

/-- `_extract_all_component_ids`: ids of recognized component elements,
first occurrence wins, empty/absent ids skipped.  The double alias pass
is collapsed by the membership guard. -/
def extractAllComponentIds (root : XElem) : List String :=
  componentTypes.foldl (fun ids t =>
    nsAliases.foldl (fun ids _ =>
      (findAllNs bpmnModelNs t root).foldl (fun ids e =>
        match e.getAttr "id" with
        | some cid => if cid ≠ "" ∧ cid ∉ ids then ids ++ [cid] else ids
        | none => ids) ids) ids) []

/-- The seen-set deduplication used for outgoing flows, shapes and
edges in `_extract_component_elements`: keep the first element per
truthy id, drop the rest.  A missing attribute (`None`) and an empty
id are both falsy in `if flow_id and flow_id not in seen`, so they are
folded into the one guard `getD "" ≠ ""`. -/
def dedupById (seen : List String) : List XElem → List XElem
  | [] => []
  | fl :: fls =>
    if (fl.getAttr "id").getD "" ≠ "" ∧ (fl.getAttr "id").getD "" ∉ seen then
      fl :: dedupById (seen ++ [(fl.getAttr "id").getD ""]) fls
    else dedupById seen fls

structure ComponentElements where
  main_component : Option XElem
  outgoing_flows : List XElem
  bpmn_shapes : List XElem
  bpmn_edges : List XElem

/-- `//bpmn2:sequenceFlow` over the model namespace. -/
def modelSeqFlows (root : XElem) : List XElem :=
  findAllNs bpmnModelNs "sequenceFlow" root

/-- `_extract_component_elements`: the first element with the given id,
the deduplicated outgoing sequence flows (`sourceRef` equal to the
component id, queried once per namespace alias), the DI shapes for the
component, and the DI edges of the outgoing flows. -/
def extractComponentElements (cid : String) (root : XElem) : ComponentElements :=
  let main := (root.allElems.filter (fun e => e.getAttr "id" == some cid)).head?
  let outgoingRaw := nsAliases.flatMap (fun _ =>
    (modelSeqFlows root).filter (fun e => e.getAttr "sourceRef" == some cid))
  let outgoing := dedupById [] outgoingRaw
  let shapes := dedupById []
    ((findAllNs bpmndiNs "BPMNShape" root).filter (fun e => e.getAttr "bpmnElement" == some cid))
  let edgesRaw := outgoing.foldl (fun acc fl =>
    match fl.getAttr "id" with
    | some i => if i ≠ "" then
        acc ++ (findAllNs bpmndiNs "BPMNEdge" root).filter (fun e => e.getAttr "bpmnElement" == some i)
      else acc
    | none => acc) []
  { main_component := main
  , outgoing_flows := outgoing
  , bpmn_shapes := shapes
  , bpmn_edges := dedupById [] edgesRaw }

/-- `_build_complete_component_xml`: main element, outgoing flows,
shapes, then only those edges whose `bpmnElement` is an outgoing flow
id, joined with newlines. -/
def buildCompleteComponentXml (ce : ComponentElements) : String :=
  let outIds := ce.outgoing_flows.map (fun fl => fl.getAttr "id")
  let parts :=
    (match ce.main_component with
     | some m => [etree_tostring m]
     | none => [])
    ++ ce.outgoing_flows.map etree_tostring
    ++ ce.bpmn_shapes.map etree_tostring
    ++ (ce.bpmn_edges.filter (fun e => outIds.contains (e.getAttr "bpmnElement"))).map etree_tostring
  joinSep "\n" parts

def braceClose : Char := Char.ofNat 125

/-- `_get_component_type`: `tag.split('}')[1]` when the lxml tag has a
closing brace (our namespace URIs contain none, so this is everything
after the first closing brace), else the tag itself. -/
def getComponentType (e : XElem) : String :=
  if containsSub e.lxmlTag "\x7d" then
    String.mk ((e.lxmlTag.data.dropWhile (fun c => c != braceClose)).drop 1)
  else e.lxmlTag

/-- `_extract_activity_type`: the XPath
`.//ifl:property[key="activityType"]/value` — descendant `ifl:property`
elements having a no-namespace `key` child with string value
`activityType`; the first `value` child's stripped text, else `""`. -/
def extractActivityType (e : XElem) : String :=
  let props := (allElemsList e.children).filter
    (fun p => p.ns == iflNs && p.tag == "property" &&
      p.children.any (fun c => c.ns == "" && c.tag == "key" && c.text == "activityType"))
  let values := props.flatMap (fun p => p.children.filter (fun c => c.ns == "" && c.tag == "value"))
  match values.head? with
  | some v => if v.text ≠ "" then pyStrip v.text else ""
  | none => ""

/-- The property-element test of `_extract_component_properties`:
`child.tag.endswith('}property') or 'property' in child.tag`. -/
def isPropertyTag (child : XElem) : Bool :=
  endsWithStr child.lxmlTag "\x7dproperty" || containsSub child.lxmlTag "property"

/-- The key/value sub-element scan of `_extract_component_properties`:
the loop reassigns on every match, so the *last* matching direct child
wins for both the key and the value element. -/
def propPairOf (child : XElem) : Option (String × String) :=
  let keyElem := (child.children.filter
    (fun sc => endsWithStr sc.lxmlTag "\x7dkey" || sc.lxmlTag == "key")).getLast?
  let valueElem := (child.children.filter
    (fun sc => endsWithStr sc.lxmlTag "\x7dvalue" || sc.lxmlTag == "value")).getLast?
  match keyElem, valueElem with
  | some k, some v => if k.text ≠ "" ∧ v.text ≠ "" then some (k.text, v.text) else none
  | _, _ => none

/-- The loop body of `_extract_component_properties`: assign
`properties[key] = value` when a key/value pair was found. -/
def propStep (props : List (String × String)) (child : XElem) : List (String × String) :=
  match propPairOf child with
  | some kv => dictInsert props kv.1 kv.2
  | none => props

/-- `_extract_component_properties`: scan every descendant (the element
itself included, as `element.iter()` does) for property-shaped
elements and assign `properties[key] = value`; assignment overwrites,
so a later descendant's value replaces an earlier one. -/
def extractComponentProperties (e : XElem) : List (String × String) :=
  (e.allElems.filter isPropertyTag).foldl propStep []

/-- `_extract_inline_scripts`: descendants whose local tag lowers to
`script` with non-empty stripped text. -/
def extractInlineScripts (e : XElem) : List RelScript :=
  (e.allElems.filter (fun el => lowerStr el.tag == "script")).foldl (fun acc el =>
    let t := pyStrip el.text
    if t ≠ "" then
      acc ++ [{ relation := "inline", language_hint := "auto", content := t, length := t.length }]
    else acc) []

/-- `_generate_component_description` (deterministic, no GPT call). -/
def generateComponentDescription (cid : String) (ce : ComponentElements) : String :=
  match ce.main_component with
  | none => "BPMN component " ++ cid
  | some main =>
    let ctype := getComponentType main
    let cname := main.getAttrD "name" ""
    let props := extractComponentProperties main
    let parts0 := [pyTitle (strReplace (strReplace ctype "Event" " Event") "Task" " Task")]
    let parts1 := if cname ≠ "" then parts0 ++ ["\x27" ++ cname ++ "\x27"] else parts0
    let parts2 :=
      if dictContains props "activityType" then
        parts1 ++ ["with activityType=" ++ dictGetD props "activityType" ""]
      else parts1
    let parts3 :=
      if dictContains props "cmdVariantUri" then
        let variant := dictGetD props "cmdVariantUri" ""
        if containsSub variant "ErrorStartEvent" then parts2 ++ ["for error handling"]
        else if containsSub variant "Timer" then parts2 ++ ["for scheduled execution"]
        else if containsSub variant "HTTP" then parts2 ++ ["for HTTP communication"]
        else parts2
      else parts2
    joinSep " " parts3

/-! ## Ownership resolution

`_find_owning_process_id` walks `getparent()` upward until the first
ancestor whose local tag is `process` and returns that ancestor's `id`
attribute.  The parentless tree is modelled by a context-passing
traversal: each element that carries an `id` attribute is recorded
together with the `id` attribute of its nearest enclosing `process`
ancestor (which is `none` when there is no such ancestor, or when that
ancestor has no `id`). -/

mutual

def idOwnerPairs : Option String → XElem → List (String × Option String)
  | ctx, .mk n p t a tx children =>
    let e := XElem.mk n p t a tx children
    (match e.getAttr "id" with
     | some i => [(i, ctx)]
     | none => [])
    ++ idOwnerPairsList (if t = "process" then e.getAttr "id" else ctx) children

def idOwnerPairsList : Option String → List XElem → List (String × Option String)
  | _, [] => []
  | ctx, e :: es => idOwnerPairs ctx e ++ idOwnerPairsList ctx es

end

/-- The `element_process` map of `_extract_sequence_flows`: first
occurrence per non-empty element id, ordered by document order
(`//*[@id]`). -/
def elementProcessMap (root : XElem) : List (String × Option String) :=
  (idOwnerPairs none root).foldl (fun m pr =>
    if pr.1 ≠ "" ∧ ¬ dictContains m pr.1 then m ++ [pr] else m) []

/-- The owning process id of the first element carrying the given id,
models `_find_owning_process_id` applied to the node found by
`//*[@id="cid"]`. -/
def findOwningProcessId (root : XElem) (cid : String) : Option String :=
  match ((idOwnerPairs none root).filter (fun pr => pr.1 == cid)).head? with
  | some pr => pr.2
  | none => none

/-- `_build_process_to_participant_map`: `processRef -> participant id`,
first writer wins, truthy keys and values only; the second alias pass
revisits the same participants. -/
def buildProcessToParticipantMap (root : XElem) : List (String × String) :=
  nsAliases.foldl (fun m _ =>
    (findAllNs bpmnModelNs "participant" root).foldl (fun m p =>
      match p.getAttr "processRef", p.getAttr "id" with
      | some pref, some pid =>
        if pref ≠ "" ∧ pid ≠ "" ∧ ¬ dictContains m pref then m ++ [(pref, pid)] else m
      | _, _ => m) m) []

/-- `_resolve_participant_for_element` for the component element found
by id: falsy process ids resolve to nothing. -/
def resolveParticipantForElement (root : XElem) (cid : String) : Option String :=
  match findOwningProcessId root cid with
  | some p => if p = "" then none else dictGet (buildProcessToParticipantMap root) p
  | none => none

/-- `_create_component_chunk`.  Returns `none` when no element carries
the id (the logged skip path). -/
def createComponentChunk (idx : ScriptIndex) (cid : String) (root : XElem)
    (iflowPath : String) : Option Chunk :=
  let ce := extractComponentElements cid root
  match ce.main_component with
  | none => none
  | some main =>
    let complete_xml := buildCompleteComponentXml ce
    let description := generateComponentDescription cid ce
    let properties := extractComponentProperties main
    let related0 := extractInlineScripts main
    let rs := resolveComponentScriptFiles idx properties complete_xml
    let participant := resolveParticipantForElement root cid
    let flowsData := ce.outgoing_flows.map (fun fl =>
      FlowData.mk (fl.getAttr "id") (fl.getAttr "sourceRef") (fl.getAttr "targetRef")
        (fl.getAttrD "name" ""))
    some { id := pyStem iflowPath ++ "_" ++ cid
         , file_name := iflowPath
         , file_type := "bpmn"
         , component_id := cid
         , component_type := getComponentType main
         , activity_type := extractActivityType main
         , complete_bpmn_xml := complete_xml
         , description := description
         , properties := properties
         , related_scripts := related0 ++ rs.1
         , unresolved_script_refs := rs.2
         , participant := participant.getD ""
         , sequence_flows := flowsData
         , connections := ce.outgoing_flows.map (fun fl => (fl.getAttr "id").getD "")
         , signature := sha256Hex16 complete_xml }

/-! ## Flow-edge chunks (`_extract_sequence_flows`,
`_extract_message_flows`)

Both functions loop `for ns in ['bpmn2', 'bpmn']` over aliases bound to
the same namespace URI and build a chunk per returned element with *no*
per-id deduplication, so each model-namespace edge is chunked once per
alias pass. -/

/-- One sequence-flow chunk (the body of the inner loop of
`_extract_sequence_flows`). -/
def mkSequenceFlowChunk (root : XElem) (iflowPath : String)
    (p2p : List (String × String)) (eproc : List (String × Option String))
    (flow : XElem) : Chunk :=
  let flow_id := pyOr (flow.getAttr "id") "sequenceFlow"
  let src := flow.getAttrD "sourceRef" ""
  let tgt := flow.getAttrD "targetRef" ""
  let src_proc : Option String := (dictGet eproc src).join
  let tgt_proc : Option String := (dictGet eproc tgt).join
  let src_part := match src_proc with
    | some p => if p ≠ "" then dictGetD p2p p "" else ""
    | none => ""
  let tgt_part := match tgt_proc with
    | some p => if p ≠ "" then dictGetD p2p p "" else ""
    | none => ""
  let di := (findAllNs bpmndiNs "BPMNEdge" root).filter
    (fun e => e.getAttr "bpmnElement" == some flow_id)
  let complete := joinSep "\n" (etree_tostring flow :: di.map etree_tostring)
  { id := pyStem iflowPath ++ "_" ++ flow_id
  , file_name := iflowPath
  , file_type := "bpmn_sequence_flow"
  , component_id := flow_id
  , component_type := "sequenceFlow"
  , content := complete
  , description := "Sequence Flow " ++ src ++ "->" ++ tgt ++ " (participants: " ++
      (if src_part = "" then "-" else src_part) ++ "â†’" ++
      (if tgt_part = "" then "-" else tgt_part) ++ ")"
  , connections := [src, tgt]
  , participant_source := src_part
  , participant_target := tgt_part
  , signature := sha256Hex16 complete }

/-- `_extract_sequence_flows`: participant map and element-process map,
then one chunk per `//ns:sequenceFlow` match per alias pass. -/
def extractSequenceFlows (root : XElem) (iflowPath : String) : List Chunk :=
  let p2p := buildProcessToParticipantMap root
  let eproc := elementProcessMap root
  nsAliases.flatMap (fun _ =>
    (modelSeqFlows root).map (mkSequenceFlowChunk root iflowPath p2p eproc))

/-- One message-flow chunk (the body of the inner loop of
`_extract_message_flows`). -/
def mkMessageFlowChunk (root : XElem) (iflowPath : String) (flow : XElem) : Chunk :=
  let flow_id := pyOr (flow.getAttr "id") "messageFlow"
  let di := (findAllNs bpmndiNs "BPMNEdge" root).filter
    (fun e => e.getAttr "bpmnElement" == some flow_id)
  let complete := joinSep "\n" (etree_tostring flow :: di.map etree_tostring)
  { id := pyStem iflowPath ++ "_" ++ flow_id
  , file_name := iflowPath
  , file_type := "bpmn_message_flow"
  , component_id := flow_id
  , component_type := "messageFlow"
  , content := complete
  , description := "Message Flow \x27" ++ flow.getAttrD "name" flow_id ++ "\x27"
  , connections := [flow.getAttrD "sourceRef" "", flow.getAttrD "targetRef" ""]
  , signature := sha256Hex16 complete }

/-- `_extract_message_flows`. -/
def extractMessageFlows (root : XElem) (iflowPath : String) : List Chunk :=
  nsAliases.flatMap (fun _ =>
    (findAllNs bpmnModelNs "messageFlow" root).map (mkMessageFlowChunk root iflowPath))

/-! ## Markup cleaning (`_clean_process_xml`,
`_format_xml_with_indentation`)

The serializer emits no namespace declarations (see above), so the
first regex of `_clean_process_xml` (removal of `xmlns` declarations)
is the identity here; the remaining steps are modelled directly. -/

/-- `re.sub(r'<(/?)(bpmn2|bpmndi|di|dc|ifl):', r'<\1', s)` for the five
fixed alternatives. -/
def stripKnownPrefixes (s : String) : String :=
  let s := strReplace (strReplace s "</bpmn2:" "</") "<bpmn2:" "<"
  let s := strReplace (strReplace s "</bpmndi:" "</") "<bpmndi:" "<"
  let s := strReplace (strReplace s "</di:" "</") "<di:" "<"
  let s := strReplace (strReplace s "</dc:" "</") "<dc:" "<"
  strReplace (strReplace s "</ifl:" "</") "<ifl:" "<"

/-- `re.sub(r'\n\s*', '', s)`: drop each newline together with the
whitespace run following it.  The input length is enough fuel, since
every step consumes at least one character. -/
def removeNlRunsAux : Nat → List Char → List Char
  | 0, _ => []
  | _, [] => []
  | Nat.succ fuel, c :: cs =>
    if c == '\n' then removeNlRunsAux fuel (cs.dropWhile Char.isWhitespace)
    else c :: removeNlRunsAux fuel cs

def removeNlRuns (cs : List Char) : List Char :=
  removeNlRunsAux cs.length cs

/-- `re.sub(r'>\s+<', '><', s)`, same fuel discipline. -/
def collapseTagGapAux : Nat → List Char → List Char
  | 0, _ => []
  | _, [] => []
  | Nat.succ fuel, c :: cs =>
    if c == '>' then
      let ws := cs.takeWhile Char.isWhitespace
      if 0 < ws.length ∧ (cs.drop ws.length).head? == some '<' then
        c :: collapseTagGapAux fuel (cs.drop ws.length)
      else c :: collapseTagGapAux fuel cs
    else c :: collapseTagGapAux fuel cs

def collapseTagGap (cs : List Char) : List Char :=
  collapseTagGapAux cs.length cs

/-- `re.split(r'(<[^>]+>)', s)` restricted to what the indentation pass
consumes: the token stream of tags and the text runs between them. -/
def xmlTokensAux : Nat → List Char → List String
  | 0, _ => []
  | _, [] => []
  | Nat.succ fuel, c :: cs =>
    if c == '<' then
      let body := cs.takeWhile (fun x => x != '>')
      if 0 < body.length ∧ body.length < cs.length then
        String.mk ('<' :: (body ++ ['>'])) :: xmlTokensAux fuel (cs.drop (body.length + 1))
      else [String.mk (c :: cs)]
    else
      let ts := (c :: cs).takeWhile (fun x => x != '<')
      String.mk ts :: xmlTokensAux fuel ((c :: cs).drop ts.length)

def xmlTokens (s : String) : List String :=
  xmlTokensAux s.data.length s.data

def fourSpaces (n : Nat) : String := String.mk (List.replicate (4 * n) ' ')

/-- `_format_xml_with_indentation`: skip blank tokens, dedent before a
closing tag, indent after an opening non-self-closing tag unless it is
a declaration or comment.  `max(0, indent - 1)` is Nat subtraction. -/
def formatXmlWithIndentation (s : String) : String :=
  if s = "" then s else
  let step := fun (st : List String × Nat) (element : String) =>
    if pyStrip element = "" then st
    else if startsWithStr element "</" then
      (st.1 ++ [fourSpaces (st.2 - 1) ++ element], st.2 - 1)
    else if startsWithStr element "<" ∧ ¬ endsWithStr element "/>" then
      if ¬ startsWithStr element "<?" ∧ ¬ startsWithStr element "<!" then
        (st.1 ++ [fourSpaces st.2 ++ element], st.2 + 1)
      else (st.1 ++ [fourSpaces st.2 ++ element], st.2)
    else (st.1 ++ [fourSpaces st.2 ++ element], st.2)
  joinSep "\n" (((xmlTokens s).foldl step ([], 0)).1)

/-- `_clean_process_xml`. -/
def cleanProcessXml (s : String) : String :=
  if s = "" then s else
  formatXmlWithIndentation
    (String.mk (collapseTagGap (removeNlRuns (stripKnownPrefixes s).data)))

/-! ## Process / subprocess chunks (`_extract_processes`,
`_extract_subprocesses`)

Their GPT-backed description (`_generate_process_description`, which
delegates to `EmbeddingGenerator.generate_description`) is the
`describe : context → kind → String` oracle parameter. -/

/-- lxml `prop.find(tag)`: first direct child with the namespace/tag. -/
def findChildNs (e : XElem) (uri tag : String) : Option XElem :=
  (e.children.filter (fun c => c.ns == uri && c.tag == tag)).head?

/-- The direct-property query: `./bpmn2:extensionElements/ifl:property`,
falling back to the namespace-free `./extensionElements/property` when
the first query matches nothing. -/
def directProps (e : XElem) : List XElem :=
  let withNs := (e.children.filter (fun c => c.ns == bpmnModelNs && c.tag == "extensionElements")).flatMap
    (fun ee => ee.children.filter (fun pr => pr.ns == iflNs && pr.tag == "property"))
  if withNs.isEmpty then
    (e.children.filter (fun c => c.ns == "" && c.tag == "extensionElements")).flatMap
      (fun ee => ee.children.filter (fun pr => pr.ns == "" && pr.tag == "property"))
  else withNs

/-- The per-container property harvest of `_extract_processes` /
`_extract_subprocesses`: key/value children looked up with the `ifl:`
namespace first and bare names second, empty keys or values skipped,
assignment overwrites, and the `special` key (`processType` resp.
`activityType`) tracked alongside. -/
def directPropsFold (e : XElem) (special : String) : List (String × String) × String :=
  (directProps e).foldl (fun st prop =>
    let keyElem := match findChildNs prop iflNs "key" with
      | some k => some k
      | none => findChildNs prop "" "key"
    let valueElem := match findChildNs prop iflNs "value" with
      | some v => some v
      | none => findChildNs prop "" "value"
    match keyElem, valueElem with
    | some ke, some ve =>
      if ke.text ≠ "" ∧ ve.text ≠ "" then
        (dictInsert st.1 ke.text ve.text, if ke.text == special then ve.text else st.2)
      else st
    | _, _ => st) ([], "")

/-- Python `repr` of the string-to-string property dict, fed only to
the description oracle. -/
def pyDictRepr (d : List (String × String)) : String :=
  "\x7b" ++ joinSep ", "
    (d.map (fun kv => "\x27" ++ kv.1 ++ "\x27: \x27" ++ kv.2 ++ "\x27")) ++ "\x7d"

/-- The loop of `_extract_processes` (only the `bpmn2` alias is
queried), deduplicating container ids via `processed_ids`. -/
def extractProcessesGo (describe : String → String → String) (iflowPath : String) :
    List XElem → List String → List Chunk
  | [], _ => []
  | process :: rest, seen =>
    let process_id := pyOr (process.getAttr "id") "process"
    if process_id ∈ seen then extractProcessesGo describe iflowPath rest seen
    else
      let pr := directPropsFold process "processType"
      let complete_xml := etree_tostring process
      let clean_xml := cleanProcessXml complete_xml
      let ctx := "Process ID: " ++ process_id ++ "\n" ++
        "Process Name: " ++ process.getAttrD "name" "" ++ "\n" ++
        "Process Type: " ++ pr.2 ++ "\n" ++
        "Properties: " ++ pyDictRepr pr.1
      { id := pyStem iflowPath ++ "_" ++ process_id
      , file_name := iflowPath
      , file_type := "bpmn"
      , component_id := process_id
      , component_type := "process"
      , activity_type := pr.2
      , complete_bpmn_xml := clean_xml
      , description := describe ctx "process"
      , properties := pr.1
      , signature := sha256Hex16 clean_xml } ::
        extractProcessesGo describe iflowPath rest (seen ++ [process_id])

def extractProcesses (describe : String → String → String) (root : XElem)
    (iflowPath : String) : List Chunk :=
  extractProcessesGo describe iflowPath (findAllNs bpmnModelNs "process" root) []

/-- The loop of `_extract_subprocesses`. -/
def extractSubprocessesGo (describe : String → String → String) (iflowPath : String) :
    List XElem → List String → List Chunk
  | [], _ => []
  | sp :: rest, seen =>
    let subprocess_id := pyOr (sp.getAttr "id") "subprocess"
    if subprocess_id ∈ seen then extractSubprocessesGo describe iflowPath rest seen
    else
      let pr := directPropsFold sp "activityType"
      let complete_xml := etree_tostring sp
      let clean_xml := cleanProcessXml complete_xml
      let ctx := "SubProcess ID: " ++ subprocess_id ++ "\n" ++
        "SubProcess Name: " ++ sp.getAttrD "name" "" ++ "\n" ++
        "Activity Type: " ++ pr.2 ++ "\n" ++
        "Properties: " ++ pyDictRepr pr.1
      { id := pyStem iflowPath ++ "_" ++ subprocess_id
      , file_name := iflowPath
      , file_type := "bpmn"
      , component_id := subprocess_id
      , component_type := "subProcess"
      , activity_type := pr.2
      , complete_bpmn_xml := clean_xml
      , description := describe ctx "subprocess"
      , properties := pr.1
      , signature := sha256Hex16 clean_xml } ::
        extractSubprocessesGo describe iflowPath rest (seen ++ [subprocess_id])

def extractSubprocesses (describe : String → String → String) (root : XElem)
    (iflowPath : String) : List Chunk :=
  extractSubprocessesGo describe iflowPath (findAllNs bpmnModelNs "subProcess" root) []

/-! ## Full-document chunk and the main-document pass -/

/-- `_create_full_iflow_chunk`: the synthetic full-document chunk whose
content is the raw text exactly as read. -/
def createFullIflowChunk (iflowPath full_xml : String) : Chunk :=
  { id := pyStem iflowPath ++ "_full_xml"
  , file_name := iflowPath
  , file_type := "bpmn_full_xml"
  , component_id := "full_xml"
  , component_type := "bpmnDefinitions"
  , content := full_xml
  , description := "Complete iFlow BPMN XML"
  , signature := sha256Hex16 full_xml }

/-- `_process_main_iflow_with_components`.  A parse failure of
`etree.fromstring` raises before any chunk is appended; the outer
`except` then returns the empty chunk list. -/
def processMainIflowWithComponents (parse : String → Option XElem)
    (describe : String → String → String) (idx : ScriptIndex) (f : PkgFile) : List Chunk :=
  match parse f.content with
  | none => []
  | some root =>
    createFullIflowChunk f.path f.content ::
      ((extractAllComponentIds root).filterMap (fun cid => createComponentChunk idx cid root f.path)
        ++ extractMessageFlows root f.path
        ++ extractSequenceFlows root f.path
        ++ extractProcesses describe root f.path
        ++ extractSubprocesses describe root f.path)

/-! ## Related files (`_process_related_file`,
`_process_all_related_files`) -/

def skipPatterns : List String :=
  ["_chunks.json", "enhanced_iflow_chunks.json", "clean_iflow_chunks.json",
   ".env", ".py", ".md", ".txt", ".pyc"]

def allowedExtensions : List String :=
  [".groovy", ".gsh", ".xsd", ".mmap", ".wsdl", ".properties", ".prop",
   ".propdef", ".xsl", ".xslt"]

/-- `_generate_file_description` (deterministic). -/
def generateFileDescription (fileName ftype content : String) : String :=
  let fl := lowerStr fileName
  let cl := lowerStr content
  if ftype == "groovy_scripts" then
    if containsSub fl "commission" then
      "Groovy script for commission processing and data iteration"
    else if containsSub fl "validation" || containsSub cl "validate" then
      "Groovy script for data validation and quality checks"
    else if containsSub fl "transformation" || containsSub cl "transform" then
      "Groovy script for data transformation and mapping"
    else "Groovy script for integration flow processing"
  else if ftype == "xsd_files" then
    if containsSub fl "employee" then "XSD schema definition for employee data structure"
    else if containsSub fl "title" then "XSD schema definition for title and response data"
    else "XSD schema definition for data validation"
  else if ftype == "message_mappings" then
    "Message mapping configuration for data transformation between systems"
  else if ftype == "properties_files" then
    if containsSub fl "parameter" then
      "Properties file defining integration flow parameters and configuration"
    else if containsSub fl "metainfo" then
      "Properties file with integration package metadata"
    else "Properties configuration file"
  else if ftype == "manifest_files" then
    "MANIFEST.MF file containing package metadata and deployment information"
  else
    pyTitle (strReplace ftype "_" " ") ++ " file"

/-- `_process_related_file`: the skip checks in source order, then the
chunk.  The read never fails in the model. -/
def processRelatedFile (f : PkgFile) (ftype : String) : Option Chunk :=
  let file_name := pyName f.path
  let ext := lowerStr (pySuffix f.path)
  if skipPatterns.any (fun pat => containsSub file_name pat || endsWithStr file_name pat) then none
  else if (if ext == ".json" then f.size > 10000
           else ¬ allowedExtensions.contains ext ∧ file_name ≠ "MANIFEST.MF") then none
  else if f.content.length > 50000 then none
  else some
    { id := pyStem f.path ++ "_" ++ ftype
    , file_name := f.path
    , file_type := ftype
    , content := f.content
    , description := generateFileDescription file_name ftype f.content
    , signature := sha256Hex16 f.content }

/-- One bucket's pass of `_process_all_related_files`: emitted chunks
and the processed paths, in file order. -/
def processBucketFiles (ftype : String) : List PkgFile → List Chunk × List String
  | [] => ([], [])
  | f :: fs =>
    let rest := processBucketFiles ftype fs
    match processRelatedFile f ftype with
    | some c => (c :: rest.1, f.path :: rest.2)
    | none => rest

/-- `_process_all_related_files` over the bucket list, skipping the
`main_iflow` bucket.  The groovy-script chunk-id backfill
(`_index_script_file` / `_update_script_index_with_chunk`) mutates only
the script index, which no emitted chunk reads (spec §6), so it is not
threaded here. -/
def processAllRelatedFiles : List (Bucket × List PkgFile) → List Chunk × List String
  | [] => ([], [])
  | (b, fs) :: rest =>
    let r := processAllRelatedFiles rest
    if b = Bucket.main_iflow then r
    else
      let here := processBucketFiles (bucketName b) fs
      (here.1 ++ r.1, here.2 ++ r.2)

/-! ## Coverage (`_verify_complete_coverage`) and the top-level run -/

structure CoverageBreakdownEntry where
  total : Nat
  processed : Nat
  coverage : Rat
deriving DecidableEq, Repr

structure CoverageReport where
  total_files_discovered : Nat
  total_files_processed : Nat
  coverage_percentage : Rat
  file_type_breakdown : List (String × CoverageBreakdownEntry)
  missing_files : List String
deriving DecidableEq, Repr

/-- `_verify_complete_coverage`.  The float percentages are modelled as
exact rationals. -/
def verifyCompleteCoverage (buckets : List (Bucket × List PkgFile))
    (processedFiles : List String) : CoverageReport :=
  let total := (buckets.map (fun p => p.2.length)).sum
  { total_files_discovered := total
  , total_files_processed := processedFiles.length
  , coverage_percentage :=
      if 0 < total then (processedFiles.length : Rat) / (total : Rat) * 100 else 100
  , file_type_breakdown := buckets.map (fun p =>
      let processed_count := (p.2.filter (fun f => f.path ∈ processedFiles)).length
      (bucketName p.1,
       { total := p.2.length
       , processed := processed_count
       , coverage := if 0 < p.2.length then
           (processed_count : Rat) / (p.2.length : Rat) * 100 else 100 }))
  , missing_files := buckets.flatMap (fun p =>
      (p.2.filter (fun f => f.path ∉ processedFiles)).map (fun f => f.path)) }

structure ChunkerResult where
  total_chunks : Nat
  processed_files_count : Nat
  coverage_report : CoverageReport
  chunks : List Chunk
deriving DecidableEq, Repr

/-- The body of `process_complete_iflow_package` up to the coverage
report: discovery, script index, main-document pass (the found main
document is appended to `processed_files` whether or not it parses),
then the related files. -/
def runChunker (parse : String → Option XElem) (describe : String → String → String)
    (files : List PkgFile) : List Chunk × List String :=
  let buckets := allFilesBuckets files
  let idx := buildScriptIndex ((discoverBucket files .groovy_scripts).map (fun f => f.path))
  let mainPart : List Chunk × List String :=
    match findMainIflow files with
    | some f => (processMainIflowWithComponents parse describe idx f, [f.path])
    | none => ([], [])
  let rel := processAllRelatedFiles buckets
  (mainPart.1 ++ rel.1, mainPart.2 ++ rel.2)

/-- `process_complete_iflow_package`. -/
def processCompleteIflowPackage (parse : String → Option XElem)
    (describe : String → String → String) (files : List PkgFile) : ChunkerResult :=
  let r := runChunker parse describe files
  { total_chunks := r.1.length
  , processed_files_count := r.2.length
  , coverage_report := verifyCompleteCoverage (allFilesBuckets files) r.2
  , chunks := r.1 }

/-! ## Derived notions used by the verification -/

/-- The ordered list of key/value pairs the property harvest of
`_extract_component_properties` encounters (document order, empty keys
or values dropped). -/
def harvestedPropPairs (e : XElem) : List (String × String) :=
  (e.allElems.filter isPropertyTag).filterMap propPairOf

/-- The paths of one discovery bucket. -/
def bucketPaths (files : List PkgFile) (b : Bucket) : List String :=
  (discoverBucket files b).map (fun f => f.path)

/-- All discovered paths, in bucket order. -/
def discoveredPaths (files : List PkgFile) : List String :=
  bucketOrder.flatMap (bucketPaths files)

/-! ## Concrete sample inputs used by witnesses and counterexamples -/

/-- A small well-formed process-definition document: one collaboration
with a participant for process `P1`, and the process
`S1 --SF1--> E1`. -/
def sampleDoc : XElem :=
  .mk bpmnModelNs "bpmn2" "definitions" [] "" [
    .mk bpmnModelNs "bpmn2" "collaboration" [("id", "C1")] "" [
      .mk bpmnModelNs "bpmn2" "participant" [("id", "Part1"), ("processRef", "P1")] "" []],
    .mk bpmnModelNs "bpmn2" "process" [("id", "P1")] "" [
      .mk bpmnModelNs "bpmn2" "startEvent" [("id", "S1")] "" [],
      .mk bpmnModelNs "bpmn2" "sequenceFlow"
        [("id", "SF1"), ("sourceRef", "S1"), ("targetRef", "E1")] "" [],
      .mk bpmnModelNs "bpmn2" "endEvent" [("id", "E1")] "" []]]

/-- A parser oracle that parses exactly the raw text `<iflow-xml/>`
into `sampleDoc`. -/
def sampleParse : String → Option XElem :=
  fun s => if s == "<iflow-xml/>" then some sampleDoc else none

def sampleDescribe : String → String → String :=
  fun _ _ => "generated description"

def altDescribe : String → String → String :=
  fun c k => "other words about " ++ k ++ " " ++ c

/-- A package with one parsable process-definition document and one
script. -/
def samplePkg : List PkgFile :=
  [⟨"src/Main.iflw", 12, "<iflow-xml/>"⟩, ⟨"scripts/Validate.gsh", 6, "def a"⟩]

/-- A parser oracle that always fails (`etree.fromstring` raising). -/
def noParse : String → Option XElem := fun _ => none

/-- A package without any process-definition document. -/
def noMainPkg : List PkgFile := [⟨"schemas/Order.xsd", 6, "<xsd/>"⟩]

/-- A package whose process-definition document fails to parse, next to
an auxiliary schema. -/
def badParsePkg : List PkgFile :=
  [⟨"src/Main.iflw", 8, "<broken"⟩, ⟨"schemas/Order.xsd", 6, "<xsd/>"⟩]

/-- A component element holding two property descendants with the same
key `dup` and different values, in document order `first`, `second`. -/
def dupKeyElem : XElem :=
  .mk bpmnModelNs "bpmn2" "callActivity" [("id", "CA1")] "" [
    .mk bpmnModelNs "bpmn2" "extensionElements" [] "" [
      .mk iflNs "ifl" "property" [] "" [
        .mk iflNs "ifl" "key" [] "dup" [],
        .mk iflNs "ifl" "value" [] "first" []],
      .mk iflNs "ifl" "property" [] "" [
        .mk iflNs "ifl" "key" [] "dup" [],
        .mk iflNs "ifl" "value" [] "second" []]]]

/-- The component chunks `_create_component_chunk` builds on
`sampleDoc` for the start and end events (under an empty script
index). -/
def sampleChunkS1 : Chunk :=
  (createComponentChunk [] "S1" sampleDoc "src/Main.iflw").getD (createFullIflowChunk "" "")

def sampleChunkE1 : Chunk :=
  (createComponentChunk [] "E1" sampleDoc "src/Main.iflw").getD (createFullIflowChunk "" "")

/-! # Theorems -/

/-! ## Shared dictionary lemmas -/

theorem dictGet_dictInsert {α : Type} (d : List (String × α)) (k : String) (v : α)
    (q : String) : dictGet (dictInsert d k v) q = if q = k then some v else dictGet d q := by
  induction d with
  | nil =>
    by_cases h : q = k
    · subst h; simp [dictInsert, dictGet]
    · simp [dictInsert, dictGet, h, Ne.symm h]
  | cons p rest ih =>
    by_cases hp : p.1 = k
    · by_cases h : q = k
      · subst h; simp [dictInsert, dictGet, hp]
      · simp [dictInsert, dictGet, hp, h, Ne.symm h]
    · by_cases h : q = p.1
      · subst h
        simp [dictInsert, dictGet, hp, Ne.symm hp]
      · simp [dictInsert, dictGet, hp, h, Ne.symm h, ih]

/-- A cons-level description of `List.getLast?`. -/
theorem getLastQ_cons {α : Type} (a : α) (l : List α) :
    (a :: l).getLast? = match l.getLast? with
      | some x => some x
      | none => some a := by
  induction l with
  | nil => simp
  | cons b t _ =>
    rw [List.getLast?_cons_cons]
    cases h : (b :: t).getLast? with
    | some x => simp
    | none => simp_all [List.getLast?_eq_none_iff]

/-- Folding assignments into a dict: the last binding of a key wins,
falling back to the initial dict. -/
theorem dictGet_foldl_insert {α : Type} (k : String) :
    ∀ (ps : List (String × α)) (d0 : List (String × α)),
      dictGet (ps.foldl (fun d kv => dictInsert d kv.1 kv.2) d0) k =
        match (ps.filter (fun kv => kv.1 == k)).getLast? with
        | some kv => some kv.2
        | none => dictGet d0 k
  | [], d0 => by simp
  | kv :: ps, d0 => by
    rw [List.foldl_cons, dictGet_foldl_insert k ps]
    by_cases hk : kv.1 = k
    · rw [List.filter_cons_of_pos (by simp [hk]), getLastQ_cons]
      cases h : (ps.filter (fun kv => kv.1 == k)).getLast? with
      | some kv2 => simp
      | none => simp [dictGet_dictInsert, hk]
    · rw [List.filter_cons_of_neg (by simp [hk])]
      cases h : (ps.filter (fun kv => kv.1 == k)).getLast? with
      | some kv2 => simp
      | none => simp [dictGet_dictInsert, hk, Ne.symm hk]

/-- The property-harvest fold is the insert-fold over the harvested
pairs. -/
theorem foldl_propStep :
    ∀ (l : List XElem) (d0 : List (String × String)),
      l.foldl propStep d0 =
        (l.filterMap propPairOf).foldl (fun d kv => dictInsert d kv.1 kv.2) d0
  | [], _ => rfl
  | a :: l, d0 => by
    cases h : propPairOf a <;>
      simp [List.filterMap_cons, h, propStep, foldl_propStep l]

/-! ## C9 — discovery exclusion is a name-substring test -/

theorem classifyFile_excluded (f : PkgFile)
    (hex : excludePatterns.any (fun pat => containsSub (pyName f.path) pat) = true) :
    classifyFile f = none := by
  simp only [classifyFile, hex, if_true]

/-- C9: any file whose *name* contains one of the exclusion markers
(`_chunks.json`, `.env`, `.py`, `.md`, `.txt`, `.pyc`, `__pycache__`)
as a substring is dropped before extension classification: it is
classified into no bucket and appears in no bucket of any discovery
run, whatever its actual extension. -/
theorem discovery_excludes_by_name_substring (f : PkgFile) (files : List PkgFile)
    (hex : excludePatterns.any (fun pat => containsSub (pyName f.path) pat) = true) :
    classifyFile f = none ∧ ∀ b : Bucket, f ∉ discoverBucket files b := by
  refine ⟨classifyFile_excluded f hex, fun b hmem => ?_⟩
  have h := (List.mem_filter.mp hmem).2
  rw [classifyFile_excluded f hex] at h
  simp at h

/-- Witness for C9: the schema file `notes.txt.xsd` has extension
`.xsd` but contains `.txt`, so it is never discovered. -/
theorem discovery_excludes_by_name_substring_witness :
    classifyFile ⟨"schemas/notes.txt.xsd", 5, "<xsd/>"⟩ = none ∧
      ∀ b : Bucket, (⟨"schemas/notes.txt.xsd", 5, "<xsd/>"⟩ : PkgFile) ∉
        discoverBucket (⟨"schemas/notes.txt.xsd", 5, "<xsd/>"⟩ :: noMainPkg) b :=
  discovery_excludes_by_name_substring _ _ (by decide)

/-! ## C6 — property harvesting: which duplicate key wins -/

/-- The claim says the value of the *earliest* matching descendant is
stored; on `dupKeyElem` the harvest meets `("dup", "first")` before
`("dup", "second")` but stores `"second"`: the claim is false. -/
theorem property_harvest_first_match_cex :
    harvestedPropPairs dupKeyElem = [("dup", "first"), ("dup", "second")] ∧
      dictGet (extractComponentProperties dupKeyElem) "dup" ≠ some "first" ∧
      dictGet (extractComponentProperties dupKeyElem) "dup" = some "second" := by
  decide

/-- C6 (amended): the property map is harvested by scanning all
descendants for key/value property sub-elements, and when the same key
occurs in more than one descendant the *last* match per key wins: the
stored value is that of the latest matching descendant in document
order. -/
theorem property_harvest_last_match_wins (e : XElem) (k : String) :
    dictGet (extractComponentProperties e) k =
      ((harvestedPropPairs e).filter (fun kv => kv.1 == k)).getLast?.map Prod.snd := by
  unfold extractComponentProperties harvestedPropPairs
  rw [foldl_propStep, dictGet_foldl_insert]
  cases h : (((e.allElems.filter isPropertyTag).filterMap propPairOf).filter
      (fun kv => kv.1 == k)).getLast? <;> simp [h, dictGet]

/-! ## C2 — flow-edge chunks are not deduplicated across aliases -/

/-- C2 as stated is false: on a package whose document has exactly one
sequence flow, the run emits two sequence-flow chunks with the same id,
so flow-edge chunk ids are not pairwise distinct. -/
theorem flow_edge_chunk_ids_not_distinct_cex :
    (modelSeqFlows sampleDoc).length = 1 ∧
      ((processCompleteIflowPackage sampleParse sampleDescribe samplePkg).chunks.filter
          (fun c => c.file_type == "bpmn_sequence_flow")).map (fun c => c.id)
        = ["Main_SF1", "Main_SF1"] ∧
      ¬ (((processCompleteIflowPackage sampleParse sampleDescribe samplePkg).chunks.filter
          (fun c => c.file_type == "bpmn_sequence_flow")).map (fun c => c.id)).Nodup := by
  decide

/-- C2 (amended): both namespace aliases are bound to the same model
namespace, the per-alias XPath queries return identical node sets and no
per-id dedup guard exists, so each flow-edge element yields exactly one
chunk *per alias pass* — i.e. exactly two chunks per edge id, one per
edge per alias; edge chunk ids are therefore not pairwise distinct as
soon as an edge exists. -/
theorem flow_edge_chunks_duplicated_per_alias (root : XElem) (path i : String) :
    (extractSequenceFlows root path).countP (fun c => c.component_id == i)
        = 2 * (modelSeqFlows root).countP
            (fun e => pyOr (e.getAttr "id") "sequenceFlow" == i) ∧
      (extractMessageFlows root path).countP (fun c => c.component_id == i)
        = 2 * (findAllNs bpmnModelNs "messageFlow" root).countP
            (fun e => pyOr (e.getAttr "id") "messageFlow" == i) := by
  constructor
  · rw [show extractSequenceFlows root path
        = (modelSeqFlows root).map (mkSequenceFlowChunk root path
            (buildProcessToParticipantMap root) (elementProcessMap root))
          ++ ((modelSeqFlows root).map (mkSequenceFlowChunk root path
            (buildProcessToParticipantMap root) (elementProcessMap root)) ++ []) from rfl]
    rw [List.append_nil, List.countP_append, List.countP_map, two_mul]
    rfl
  · rw [show extractMessageFlows root path
        = (findAllNs bpmnModelNs "messageFlow" root).map (mkMessageFlowChunk root path)
          ++ ((findAllNs bpmnModelNs "messageFlow" root).map (mkMessageFlowChunk root path)
            ++ []) from rfl]
    rw [List.append_nil, List.countP_append, List.countP_map, two_mul]
    rfl

/-! ## C3 — a missing/unparsable main document does not abort the run -/

/-- C3 as stated is false: a package with no process-definition
document still yields auxiliary chunks (here one schema chunk), not
zero chunks. -/
theorem zero_chunks_on_missing_main_cex :
    findMainIflow noMainPkg = none ∧
      (processCompleteIflowPackage noParse sampleDescribe noMainPkg).chunks ≠ [] ∧
      (processCompleteIflowPackage noParse sampleDescribe noMainPkg).total_chunks = 1 := by
  decide

/-- C3 (amended): if the process-definition document is missing or
fails to parse, the *document* contributes zero chunks, but the run
does not abort: the result's chunks are exactly the auxiliary-file
chunks. -/
theorem missing_or_unparsable_main_still_chunks_aux
    (parse : String → Option XElem) (describe : String → String → String)
    (files : List PkgFile)
    (h : findMainIflow files = none ∨
         ∃ f, findMainIflow files = some f ∧ parse f.content = none) :
    (processCompleteIflowPackage parse describe files).chunks
      = (processAllRelatedFiles (allFilesBuckets files)).1 := by
  rcases h with h | ⟨f, hf, hp⟩
  · simp [processCompleteIflowPackage, runChunker, h]
  · simp [processCompleteIflowPackage, runChunker, hf, processMainIflowWithComponents, hp]

/-- Witness for C3 (amended), on a package whose document text does not
parse: the run still returns exactly the schema chunk. -/
theorem missing_or_unparsable_main_still_chunks_aux_witness :
    (processCompleteIflowPackage noParse sampleDescribe badParsePkg).chunks
      = (processAllRelatedFiles (allFilesBuckets badParsePkg)).1 :=
  missing_or_unparsable_main_still_chunks_aux noParse sampleDescribe badParsePkg
    (Or.inr ⟨⟨"src/Main.iflw", 8, "<broken"⟩, by decide, rfl⟩)

/-! ## C10 — an unparsable main document still counts as processed -/

/-- C10: when the found process-definition document fails to parse, the
per-document pass yields zero chunks, yet the file is appended to the
processed list unconditionally, so the coverage report never lists it
as missing. -/
theorem unparsable_main_counted_processed
    (parse : String → Option XElem) (describe : String → String → String)
    (files : List PkgFile) (f : PkgFile)
    (hmain : findMainIflow files = some f) (hparse : parse f.content = none) :
    (∀ idx : ScriptIndex, processMainIflowWithComponents parse describe idx f = []) ∧
      f.path ∈ (runChunker parse describe files).2 ∧
      f.path ∉ (processCompleteIflowPackage parse describe files).coverage_report.missing_files := by
  have hproc : f.path ∈ (runChunker parse describe files).2 := by
    simp [runChunker, hmain]
  refine ⟨fun idx => by simp [processMainIflowWithComponents, hparse], hproc, ?_⟩
  intro hmem
  simp only [processCompleteIflowPackage, verifyCompleteCoverage, List.mem_flatMap,
    List.mem_map, List.mem_filter] at hmem
  obtain ⟨pr, _, g, ⟨_, hnotin⟩, hEq⟩ := hmem
  rw [hEq] at hnotin
  simp at hnotin
  exact hnotin hproc

/-- Witness for C10 on the unparsable-document package. -/
theorem unparsable_main_counted_processed_witness :
    (∀ idx : ScriptIndex, processMainIflowWithComponents noParse sampleDescribe idx
        ⟨"src/Main.iflw", 8, "<broken"⟩ = []) ∧
      "src/Main.iflw" ∈ (runChunker noParse sampleDescribe badParsePkg).2 ∧
      "src/Main.iflw" ∉ (processCompleteIflowPackage noParse sampleDescribe
        badParsePkg).coverage_report.missing_files :=
  unparsable_main_counted_processed noParse sampleDescribe badParsePkg
    ⟨"src/Main.iflw", 8, "<broken"⟩ (by decide) rfl

/-! ## C1 — the full-document chunk -/

theorem processRelatedFile_some_ftype {f : PkgFile} {t : String} {c : Chunk}
    (h : processRelatedFile f t = some c) : c.file_type = t := by
  unfold processRelatedFile at h
  dsimp only [] at h
  repeat' split at h
  all_goals
    first
      | exact Option.noConfusion h
      | (cases h; rfl)

theorem processBucketFiles_ftype (t : String) (fs : List PkgFile) :
    ∀ c ∈ (processBucketFiles t fs).1, c.file_type = t := by
  induction fs with
  | nil => simp [processBucketFiles]
  | cons f fs ih =>
    intro c hc
    rw [processBucketFiles] at hc
    cases hp : processRelatedFile f t with
    | none => rw [hp] at hc; exact ih c hc
    | some c0 =>
      rw [hp] at hc
      rcases List.mem_cons.mp hc with rfl | hc
      · exact processRelatedFile_some_ftype hp
      · exact ih c hc

theorem processAllRelatedFiles_ftype :
    ∀ (bl : List (Bucket × List PkgFile)), ∀ c ∈ (processAllRelatedFiles bl).1,
      ∃ pr ∈ bl, pr.1 ≠ Bucket.main_iflow ∧ c.file_type = bucketName pr.1 := by
  intro bl
  induction bl with
  | nil => simp [processAllRelatedFiles]
  | cons pr rest ih =>
    intro c hc
    obtain ⟨b, fs⟩ := pr
    rw [processAllRelatedFiles] at hc
    by_cases hb : b = Bucket.main_iflow
    · rw [if_pos hb] at hc
      obtain ⟨pr2, h1, h2⟩ := ih c hc
      exact ⟨pr2, List.mem_cons_of_mem _ h1, h2⟩
    · rw [if_neg hb] at hc
      rcases List.mem_append.mp hc with hc | hc
      · exact ⟨(b, fs), List.mem_cons_self _ _, hb, processBucketFiles_ftype _ _ c hc⟩
      · obtain ⟨pr2, h1, h2⟩ := ih c hc
        exact ⟨pr2, List.mem_cons_of_mem _ h1, h2⟩

theorem bucketName_not_bpmn (b : Bucket) :
    bucketName b ≠ "bpmn_full_xml" ∧ bucketName b ≠ "bpmn" ∧
      bucketName b ≠ "bpmn_sequence_flow" ∧ bucketName b ≠ "bpmn_message_flow" := by
  cases b <;> exact ⟨by decide, by decide, by decide, by decide⟩

theorem createComponentChunk_ftype {idx : ScriptIndex} {cid : String} {root : XElem}
    {p : String} {c : Chunk} (h : createComponentChunk idx cid root p = some c) :
    c.file_type = "bpmn" := by
  unfold createComponentChunk at h
  dsimp only [] at h
  split at h
  · exact absurd h (by simp)
  · cases h
    rfl

theorem extractMessageFlows_ftype (root : XElem) (p : String) :
    ∀ c ∈ extractMessageFlows root p, c.file_type = "bpmn_message_flow" := by
  intro c hc
  rw [extractMessageFlows] at hc
  obtain ⟨_, _, hc⟩ := List.mem_flatMap.mp hc
  obtain ⟨e, _, rfl⟩ := List.mem_map.mp hc
  rfl

theorem extractSequenceFlows_ftype (root : XElem) (p : String) :
    ∀ c ∈ extractSequenceFlows root p, c.file_type = "bpmn_sequence_flow" := by
  intro c hc
  rw [extractSequenceFlows] at hc
  obtain ⟨_, _, hc⟩ := List.mem_flatMap.mp hc
  obtain ⟨e, _, rfl⟩ := List.mem_map.mp hc
  rfl

theorem extractProcessesGo_ftype (d : String → String → String) (p : String) :
    ∀ (l : List XElem) (seen : List String) (c : Chunk),
      c ∈ extractProcessesGo d p l seen → c.file_type = "bpmn" := by
  intro l
  induction l with
  | nil => intro seen c hc; simp [extractProcessesGo] at hc
  | cons e rest ih =>
    intro seen c hc
    rw [extractProcessesGo] at hc
    split at hc
    · exact ih seen c hc
    · rcases List.mem_cons.mp hc with rfl | hc
      · rfl
      · exact ih _ c hc

theorem extractSubprocessesGo_ftype (d : String → String → String) (p : String) :
    ∀ (l : List XElem) (seen : List String) (c : Chunk),
      c ∈ extractSubprocessesGo d p l seen → c.file_type = "bpmn" := by
  intro l
  induction l with
  | nil => intro seen c hc; simp [extractSubprocessesGo] at hc
  | cons e rest ih =>
    intro seen c hc
    rw [extractSubprocessesGo] at hc
    split at hc
    · exact ih seen c hc
    · rcases List.mem_cons.mp hc with rfl | hc
      · rfl
      · exact ih _ c hc

/-- Every chunk of the main-document pass other than the head has a
file type different from `bpmn_full_xml`. -/
theorem mainPass_rest_ftype (parse : String → Option XElem)
    (describe : String → String → String) (idx : ScriptIndex) (f : PkgFile)
    (root : XElem) (hparse : parse f.content = some root) :
    processMainIflowWithComponents parse describe idx f
      = createFullIflowChunk f.path f.content ::
          ((extractAllComponentIds root).filterMap
              (fun cid => createComponentChunk idx cid root f.path)
            ++ extractMessageFlows root f.path
            ++ extractSequenceFlows root f.path
            ++ extractProcesses describe root f.path
            ++ extractSubprocesses describe root f.path) ∧
    ∀ c ∈ ((extractAllComponentIds root).filterMap
              (fun cid => createComponentChunk idx cid root f.path)
            ++ extractMessageFlows root f.path
            ++ extractSequenceFlows root f.path
            ++ extractProcesses describe root f.path
            ++ extractSubprocesses describe root f.path),
      c.file_type ≠ "bpmn_full_xml" := by
  constructor
  · rw [processMainIflowWithComponents, hparse]
  · intro c hc
    rcases List.mem_append.mp hc with hc | hc
    · rcases List.mem_append.mp hc with hc | hc
      · rcases List.mem_append.mp hc with hc | hc
        · rcases List.mem_append.mp hc with hc | hc
          · obtain ⟨cid, _, hcc⟩ := List.mem_filterMap.mp hc
            rw [createComponentChunk_ftype hcc]; decide
          · rw [extractMessageFlows_ftype root f.path c hc]; decide
        · rw [extractSequenceFlows_ftype root f.path c hc]; decide
      · rw [extractProcessesGo_ftype describe f.path _ _ c hc]; decide
    · rw [extractSubprocessesGo_ftype describe f.path _ _ c hc]; decide

/-- C1: for every package whose process-definition document is found
and parses, the output contains exactly one full-document chunk
(`file_type` `bpmn_full_xml`, synthetic component id `full_xml`), and
its content equals the raw document text exactly as read. -/
theorem full_document_chunk_unique_and_raw (parse : String → Option XElem)
    (describe : String → String → String) (files : List PkgFile) (f : PkgFile)
    (root : XElem) (hmain : findMainIflow files = some f)
    (hparse : parse f.content = some root) :
    (processCompleteIflowPackage parse describe files).chunks.filter
        (fun c => c.file_type == "bpmn_full_xml")
      = [createFullIflowChunk f.path f.content] ∧
    (createFullIflowChunk f.path f.content).component_id = "full_xml" ∧
    (createFullIflowChunk f.path f.content).content = f.content := by
  refine ⟨?_, rfl, rfl⟩
  have hchunks : (processCompleteIflowPackage parse describe files).chunks
      = processMainIflowWithComponents parse describe
          (buildScriptIndex ((discoverBucket files .groovy_scripts).map (fun g => g.path))) f
        ++ (processAllRelatedFiles (allFilesBuckets files)).1 := by
    simp [processCompleteIflowPackage, runChunker, hmain]
  obtain ⟨hmainpass, hrest⟩ := mainPass_rest_ftype parse describe
    (buildScriptIndex ((discoverBucket files .groovy_scripts).map (fun g => g.path)))
    f root hparse
  rw [hchunks, hmainpass, List.filter_append, List.filter_cons]
  have hfull : ((createFullIflowChunk f.path f.content).file_type == "bpmn_full_xml") = true := rfl
  rw [if_pos hfull]
  have h1 : (List.filter (fun c => c.file_type == "bpmn_full_xml")
      ((extractAllComponentIds root).filterMap
          (fun cid => createComponentChunk
            (buildScriptIndex ((discoverBucket files .groovy_scripts).map (fun g => g.path)))
            cid root f.path)
        ++ extractMessageFlows root f.path
        ++ extractSequenceFlows root f.path
        ++ extractProcesses describe root f.path
        ++ extractSubprocesses describe root f.path)) = [] := by
    rw [List.filter_eq_nil_iff]
    intro c hc
    simpa using hrest c hc
  have h2 : (List.filter (fun c => c.file_type == "bpmn_full_xml")
      (processAllRelatedFiles (allFilesBuckets files)).1) = [] := by
    rw [List.filter_eq_nil_iff]
    intro c hc
    obtain ⟨pr, _, _, hft⟩ := processAllRelatedFiles_ftype _ c hc
    simpa [hft] using (bucketName_not_bpmn pr.1).1
  rw [h1, h2]
  simp

/-- Witness for C1 on `samplePkg`. -/
theorem full_document_chunk_unique_and_raw_witness :
    (processCompleteIflowPackage sampleParse sampleDescribe samplePkg).chunks.filter
        (fun c => c.file_type == "bpmn_full_xml")
      = [createFullIflowChunk "src/Main.iflw" "<iflow-xml/>"] ∧
    (createFullIflowChunk "src/Main.iflw" "<iflow-xml/>").component_id = "full_xml" ∧
    (createFullIflowChunk "src/Main.iflw" "<iflow-xml/>").content = "<iflow-xml/>" :=
  full_document_chunk_unique_and_raw sampleParse sampleDescribe samplePkg
    ⟨"src/Main.iflw", 12, "<iflow-xml/>"⟩ sampleDoc (by decide) rfl

/-! ## C7 — script-reference resolution -/

theorem dictGet_indexScriptFile (idx : ScriptIndex) (key rel : String)
    (cid : Option String) (q : String) :
    dictGet (indexScriptFile idx key rel cid) q
      = if q = lowerStr key then some ⟨rel, cid⟩ else dictGet idx q :=
  dictGet_dictInsert idx (lowerStr key) ⟨rel, cid⟩ q

theorem buildScriptIndexFrom_isSome :
    ∀ (ps : List String) (idx : ScriptIndex) (k : String),
      (dictGet (buildScriptIndexFrom idx ps) k).isSome = true ↔
        (dictGet idx k).isSome = true ∨
          ∃ p ∈ ps, lowerStr (pyName p) = k ∨ lowerStr (pyStem p) = k
  | [], idx, k => by simp [buildScriptIndexFrom]
  | p :: ps, idx, k => by
    rw [buildScriptIndexFrom, buildScriptIndexFrom_isSome ps,
      dictGet_indexScriptFile, dictGet_indexScriptFile]
    constructor
    · rintro (h | h)
      · by_cases h1 : k = lowerStr (pyStem p)
        · exact Or.inr ⟨p, List.mem_cons_self _ _, Or.inr h1.symm⟩
        · rw [if_neg h1] at h
          by_cases h2 : k = lowerStr (pyName p)
          · exact Or.inr ⟨p, List.mem_cons_self _ _, Or.inl h2.symm⟩
          · rw [if_neg h2] at h
            exact Or.inl h
      · obtain ⟨q2, hq, hor⟩ := h
        exact Or.inr ⟨q2, List.mem_cons_of_mem _ hq, hor⟩
    · rintro (h | ⟨q2, hq, hor⟩)
      · left
        by_cases h1 : k = lowerStr (pyStem p)
        · rw [if_pos h1]; rfl
        · rw [if_neg h1]
          by_cases h2 : k = lowerStr (pyName p)
          · rw [if_pos h2]; rfl
          · rw [if_neg h2]; exact h
      · rcases List.mem_cons.mp hq with rfl | hq
        · left
          rcases hor with hor | hor
          · by_cases h1 : k = lowerStr (pyStem q2)
            · rw [if_pos h1]; rfl
            · rw [if_neg h1, if_pos hor.symm]; rfl
          · rw [if_pos hor.symm]; rfl
        · exact Or.inr ⟨q2, hq, hor⟩

/-- A single trimmed non-empty candidate under a key hinting at
scripts is collected verbatim. -/
theorem collect_single_candidate (cand : String)
    (hs : pyStrip cand = cand) (hne : cand ≠ "") :
    collectScriptCandidates [("script", cand)] "" = [cand] := by
  unfold collectScriptCandidates
  simp [hs, hne]
  exact fun _ _ => by decide

/-- A looked-up single candidate is reported as resolved (carrying the
indexed relative path), never as unresolved. -/
theorem resolve_single_candidate (idx : ScriptIndex) (cand : String)
    (hs : pyStrip cand = cand) (hne : cand ≠ "")
    (e : SIEntry) (hlook : scriptLookup idx cand = some e) :
    resolveComponentScriptFiles idx [("script", cand)] ""
      = ([{ relation := "file", file_name := e.file_name,
            file_type := "groovy_scripts", chunk_id := e.chunk_id.getD "" }], []) := by
  unfold resolveComponentScriptFiles
  rw [collect_single_candidate cand hs hne]
  simp [hlook]

/-- C7: candidate resolution against the script index built by
`_build_script_index`.
Part 1: a candidate equal up to case to an indexed script's file name
hits the full-name lookup and is reported resolved.
Part 2: a candidate whose lowered full name matches no index key but
whose stem matches an indexed script's stem (e.g. `Validate.groovy`
against an indexed `Validate.gsh`) finds nothing under the full-name
lookup, hits the stem-fallback lookup, and is still reported resolved
rather than unresolved. -/
theorem script_resolution_fullname_and_stem (ss : List String) (cand : String)
    (hs : pyStrip cand = cand) (hne : cand ≠ "") :
    ((∃ p ∈ ss, lowerStr (pyName p) = lowerStr cand) →
      (dictGet (buildScriptIndex ss) (lowerStr cand)).isSome = true ∧
        ∃ e, scriptLookup (buildScriptIndex ss) cand = some e ∧
          resolveComponentScriptFiles (buildScriptIndex ss) [("script", cand)] ""
            = ([{ relation := "file", file_name := e.file_name,
                  file_type := "groovy_scripts", chunk_id := e.chunk_id.getD "" }], []))
    ∧
    ((∀ p ∈ ss, lowerStr (pyName p) ≠ lowerStr cand ∧ lowerStr (pyStem p) ≠ lowerStr cand) →
      (∃ p ∈ ss, lowerStr (pyStem p) = pyStem (lowerStr cand)) →
      dictGet (buildScriptIndex ss) (lowerStr cand) = none ∧
        (dictGet (buildScriptIndex ss) (pyStem (lowerStr cand))).isSome = true ∧
        ∃ e, scriptLookup (buildScriptIndex ss) cand = some e ∧
          resolveComponentScriptFiles (buildScriptIndex ss) [("script", cand)] ""
            = ([{ relation := "file", file_name := e.file_name,
                  file_type := "groovy_scripts", chunk_id := e.chunk_id.getD "" }], [])) := by
  constructor
  · intro hfull
    have hsome : (dictGet (buildScriptIndex ss) (lowerStr cand)).isSome = true := by
      rw [buildScriptIndex, buildScriptIndexFrom_isSome]
      obtain ⟨p, hp, heq⟩ := hfull
      exact Or.inr ⟨p, hp, Or.inl heq⟩
    obtain ⟨e, he⟩ := Option.isSome_iff_exists.mp hsome
    have hlook : scriptLookup (buildScriptIndex ss) cand = some e := by
      unfold scriptLookup
      dsimp only []
      rw [he]
    exact ⟨hsome, e, hlook, resolve_single_candidate _ cand hs hne e hlook⟩
  · intro hnofull hstem
    have hnone : dictGet (buildScriptIndex ss) (lowerStr cand) = none := by
      rw [← Option.not_isSome_iff_eq_none]
      intro hsome
      rw [buildScriptIndex, buildScriptIndexFrom_isSome] at hsome
      rcases hsome with hsome | ⟨p, hp, hor⟩
      · simp [dictGet] at hsome
      · rcases hor with hor | hor
        · exact (hnofull p hp).1 hor
        · exact (hnofull p hp).2 hor
    have hsome2 : (dictGet (buildScriptIndex ss) (pyStem (lowerStr cand))).isSome = true := by
      rw [buildScriptIndex, buildScriptIndexFrom_isSome]
      obtain ⟨p, hp, heq⟩ := hstem
      exact Or.inr ⟨p, hp, Or.inr heq⟩
    obtain ⟨e, he⟩ := Option.isSome_iff_exists.mp hsome2
    have hlook : scriptLookup (buildScriptIndex ss) cand = some e := by
      unfold scriptLookup
      dsimp only []
      rw [hnone]
      exact he
    exact ⟨hnone, hsome2, e, hlook, resolve_single_candidate _ cand hs hne e hlook⟩

/-- Witness for C7: against the indexed script `scripts/Validate.gsh`,
the candidate `validate.GSH` resolves via the case-insensitive
full-name lookup, and `Validate.groovy` resolves only via the
stem-fallback lookup (the full-name lookup finds nothing) yet is still
reported resolved. -/
theorem script_resolution_fullname_and_stem_witness :
    ((dictGet (buildScriptIndex ["scripts/Validate.gsh"]) (lowerStr "validate.GSH")).isSome = true ∧
      ∃ e, scriptLookup (buildScriptIndex ["scripts/Validate.gsh"]) "validate.GSH" = some e ∧
        resolveComponentScriptFiles (buildScriptIndex ["scripts/Validate.gsh"])
            [("script", "validate.GSH")] ""
          = ([{ relation := "file", file_name := e.file_name,
                file_type := "groovy_scripts", chunk_id := e.chunk_id.getD "" }], []))
    ∧
    (dictGet (buildScriptIndex ["scripts/Validate.gsh"]) (lowerStr "Validate.groovy") = none ∧
      (dictGet (buildScriptIndex ["scripts/Validate.gsh"])
          (pyStem (lowerStr "Validate.groovy"))).isSome = true ∧
      ∃ e, scriptLookup (buildScriptIndex ["scripts/Validate.gsh"]) "Validate.groovy" = some e ∧
        resolveComponentScriptFiles (buildScriptIndex ["scripts/Validate.gsh"])
            [("script", "Validate.groovy")] ""
          = ([{ relation := "file", file_name := e.file_name,
                file_type := "groovy_scripts", chunk_id := e.chunk_id.getD "" }], [])) :=
  ⟨(script_resolution_fullname_and_stem ["scripts/Validate.gsh"] "validate.GSH"
      (by decide) (by decide)).1 ⟨"scripts/Validate.gsh", by decide, by decide⟩,
   (script_resolution_fullname_and_stem ["scripts/Validate.gsh"] "Validate.groovy"
      (by decide) (by decide)).2 (by decide)
      ⟨"scripts/Validate.gsh", by decide, by decide⟩⟩

/-! ## C4 — outgoing-edge lists -/

theorem dedupById_mem :
    ∀ (l : List XElem) (seen : List String) (fl : XElem), fl ∈ dedupById seen l →
      fl ∈ l ∧ (fl.getAttr "id").getD "" ≠ ""
  | [], seen, fl => by simp [dedupById]
  | a :: l, seen, fl => by
    intro hm
    rw [dedupById] at hm
    split at hm
    · next hcond =>
      rcases List.mem_cons.mp hm with rfl | hm
      · exact ⟨List.mem_cons_self _ _, hcond.1⟩
      · obtain ⟨h1, h2⟩ := dedupById_mem l _ fl hm
        exact ⟨List.mem_cons_of_mem _ h1, h2⟩
    · obtain ⟨h1, h2⟩ := dedupById_mem l seen fl hm
      exact ⟨List.mem_cons_of_mem _ h1, h2⟩

theorem dedupById_ids_nodup :
    ∀ (l : List XElem) (seen : List String),
      ((dedupById seen l).map (fun fl => (fl.getAttr "id").getD "")).Nodup ∧
        ∀ i ∈ (dedupById seen l).map (fun fl => (fl.getAttr "id").getD ""), i ∉ seen
  | [], seen => by simp [dedupById]
  | a :: l, seen => by
    rw [dedupById]
    split
    · next hcond =>
      obtain ⟨hnd, hni⟩ := dedupById_ids_nodup l (seen ++ [(a.getAttr "id").getD ""])
      rw [List.map_cons]
      constructor
      · rw [List.nodup_cons]
        refine ⟨fun hmem => ?_, hnd⟩
        have := hni _ hmem
        simp at this
      · intro j hj
        rcases List.mem_cons.mp hj with rfl | hj
        · exact hcond.2
        · have := hni j hj
          simp at this
          exact this.1
    · exact dedupById_ids_nodup l seen

theorem createComponentChunk_fields {idx : ScriptIndex} {cid : String} {root : XElem}
    {p : String} {c : Chunk} (h : createComponentChunk idx cid root p = some c) :
    c.connections = (extractComponentElements cid root).outgoing_flows.map
        (fun fl => (fl.getAttr "id").getD "") ∧
      c.sequence_flows = (extractComponentElements cid root).outgoing_flows.map
        (fun fl => FlowData.mk (fl.getAttr "id") (fl.getAttr "sourceRef")
          (fl.getAttr "targetRef") (fl.getAttrD "name" "")) := by
  unfold createComponentChunk at h
  dsimp only [] at h
  split at h
  · exact Option.noConfusion h
  · cases h
    exact ⟨rfl, rfl⟩

/-- Membership in the deduplicated outgoing-flow list of a component
comes from a model-namespace sequence flow whose `sourceRef` is the
component id. -/
theorem outgoing_mem {cid : String} {root : XElem} {fl : XElem}
    (h : fl ∈ (extractComponentElements cid root).outgoing_flows) :
    fl ∈ modelSeqFlows root ∧ fl.getAttr "sourceRef" = some cid ∧
      ∃ i, fl.getAttr "id" = some i ∧ i ≠ "" := by
  have hraw : (extractComponentElements cid root).outgoing_flows
      = dedupById [] (nsAliases.flatMap (fun _ =>
          (modelSeqFlows root).filter (fun e => e.getAttr "sourceRef" == some cid))) := rfl
  rw [hraw] at h
  obtain ⟨hm, hid⟩ := dedupById_mem _ _ _ h
  obtain ⟨_, _, hm⟩ := List.mem_flatMap.mp hm
  obtain ⟨hm, hsrc⟩ := List.mem_filter.mp hm
  refine ⟨hm, by simpa using hsrc, ?_⟩
  cases hone : fl.getAttr "id" with
  | none => rw [hone] at hid; simp at hid
  | some i => exact ⟨i, rfl, by rwa [hone, Option.getD_some] at hid⟩

/-- C4: a component chunk's outgoing-edge list (`connections`, and the
ids of `sequence_flows`) contains only ids of sequence-flow elements
whose `sourceRef` is that component's id, each id at most once; and —
provided distinct flow elements carry consistent `sourceRef`s per id,
as id-unique BPMN documents do — no id appears in the outgoing lists of
two component chunks with different component ids. -/
theorem outgoing_flows_sound_nodup_disjoint
    (root : XElem) (p : String) (idx : ScriptIndex) (c1 c2 : String) (ch1 ch2 : Chunk)
    (hwf : ∀ e1 ∈ modelSeqFlows root, ∀ e2 ∈ modelSeqFlows root,
      e1.getAttr "id" = e2.getAttr "id" → e1.getAttr "sourceRef" = e2.getAttr "sourceRef")
    (h1 : createComponentChunk idx c1 root p = some ch1)
    (h2 : createComponentChunk idx c2 root p = some ch2) :
    (∀ fid ∈ ch1.connections, ∃ e ∈ modelSeqFlows root,
        e.getAttr "id" = some fid ∧ e.getAttr "sourceRef" = some c1) ∧
      ch1.connections.Nodup ∧
      ch1.sequence_flows.map FlowData.id = ch1.connections.map some ∧
      (c1 ≠ c2 → ∀ fid ∈ ch1.connections, fid ∉ ch2.connections) := by
  obtain ⟨hc1, hs1⟩ := createComponentChunk_fields h1
  obtain ⟨hc2, _⟩ := createComponentChunk_fields h2
  have hsound : ∀ (c0 : String) (ch : Chunk),
      ch.connections = (extractComponentElements c0 root).outgoing_flows.map
        (fun fl => (fl.getAttr "id").getD "") →
      ∀ fid ∈ ch.connections, ∃ e ∈ modelSeqFlows root,
        e.getAttr "id" = some fid ∧ e.getAttr "sourceRef" = some c0 := by
    intro c0 ch hc fid hf
    rw [hc] at hf
    obtain ⟨fl, hfl, rfl⟩ := List.mem_map.mp hf
    obtain ⟨hm, hsrc, i, hi, _⟩ := outgoing_mem hfl
    refine ⟨fl, hm, ?_, hsrc⟩
    rw [hi]
    simp
  refine ⟨hsound c1 ch1 hc1, ?_, ?_, ?_⟩
  · rw [hc1]
    exact (dedupById_ids_nodup _ _).1
  · rw [hs1, hc1, List.map_map, List.map_map]
    refine List.map_congr_left (fun fl hfl => ?_)
    obtain ⟨_, _, i, hi, _⟩ := outgoing_mem hfl
    simp [FlowData.id, hi]
  · intro hne fid hf1 hf2
    obtain ⟨e1, he1, hid1, hsrc1⟩ := hsound c1 ch1 hc1 fid hf1
    obtain ⟨e2, he2, hid2, hsrc2⟩ := hsound c2 ch2 hc2 fid hf2
    have := hwf e1 he1 e2 he2 (by rw [hid1, hid2])
    rw [hsrc1, hsrc2] at this
    exact hne (Option.some.inj this)

set_option maxRecDepth 8000 in
/-- Witness for C4 on `sampleDoc`: the start event owns `SF1`, the end
event owns nothing, and the lists are disjoint. -/
theorem outgoing_flows_sound_nodup_disjoint_witness :
    (∀ fid ∈ sampleChunkS1.connections, ∃ e ∈ modelSeqFlows sampleDoc,
        e.getAttr "id" = some fid ∧ e.getAttr "sourceRef" = some "S1") ∧
      sampleChunkS1.connections.Nodup ∧
      sampleChunkS1.sequence_flows.map FlowData.id = sampleChunkS1.connections.map some ∧
      ("S1" ≠ "E1" → ∀ fid ∈ sampleChunkS1.connections, fid ∉ sampleChunkE1.connections) :=
  outgoing_flows_sound_nodup_disjoint sampleDoc "src/Main.iflw" [] "S1" "E1"
    sampleChunkS1 sampleChunkE1 (by decide) (by decide) (by decide)

/-! ## C8 — ids and signatures are oracle-independent -/

/-- Process chunks keep their `(id, signature)` pair whatever the
description oracle returns. -/
theorem extractProcessesGo_idSig (d1 d2 : String → String → String) (p : String) :
    ∀ (l : List XElem) (seen : List String),
      (extractProcessesGo d1 p l seen).map (fun c => (c.id, c.signature))
        = (extractProcessesGo d2 p l seen).map (fun c => (c.id, c.signature))
  | [], _ => rfl
  | e :: rest, seen => by
    by_cases hmem : pyOr (e.getAttr "id") "process" ∈ seen
    · simp only [extractProcessesGo]
      rw [if_pos hmem, if_pos hmem]
      exact extractProcessesGo_idSig d1 d2 p rest seen
    · simp only [extractProcessesGo]
      rw [if_neg hmem, if_neg hmem, List.map_cons, List.map_cons,
        extractProcessesGo_idSig d1 d2 p rest]

theorem extractSubprocessesGo_idSig (d1 d2 : String → String → String) (p : String) :
    ∀ (l : List XElem) (seen : List String),
      (extractSubprocessesGo d1 p l seen).map (fun c => (c.id, c.signature))
        = (extractSubprocessesGo d2 p l seen).map (fun c => (c.id, c.signature))
  | [], _ => rfl
  | e :: rest, seen => by
    by_cases hmem : pyOr (e.getAttr "id") "subprocess" ∈ seen
    · simp only [extractSubprocessesGo]
      rw [if_pos hmem, if_pos hmem]
      exact extractSubprocessesGo_idSig d1 d2 p rest seen
    · simp only [extractSubprocessesGo]
      rw [if_neg hmem, if_neg hmem, List.map_cons, List.map_cons,
        extractSubprocessesGo_idSig d1 d2 p rest]

/-- C8: two decomposition runs over the same unchanged package produce
chunk lists with identical `id` and `signature` sequences, whatever the
external description oracle does in either run — each chunk id is
derived from the document stem and the element/flow id, and each
signature is a content digest; neither reads anything outside the
package's files. -/
theorem run_id_signature_deterministic (parse : String → Option XElem)
    (d1 d2 : String → String → String) (files : List PkgFile) :
    (processCompleteIflowPackage parse d1 files).chunks.map (fun c => (c.id, c.signature))
      = (processCompleteIflowPackage parse d2 files).chunks.map
          (fun c => (c.id, c.signature)) := by
  simp only [processCompleteIflowPackage, runChunker]
  cases hmain : findMainIflow files with
  | none => rfl
  | some f =>
    simp only []
    rw [List.map_append, List.map_append]
    congr 1
    cases hp : parse f.content with
    | none => simp [processMainIflowWithComponents, hp]
    | some root =>
      simp only [processMainIflowWithComponents, hp, List.map_cons, List.map_append]
      rw [extractProcesses, extractProcesses, extractSubprocesses, extractSubprocesses,
        extractProcessesGo_idSig d1 d2 f.path, extractSubprocessesGo_idSig d1 d2 f.path]

/-! ## C5 — coverage arithmetic -/

theorem mem_bucketOrder (b : Bucket) : b ∈ bucketOrder := by
  cases b <;> decide

theorem coverage_cat_split (fs : List PkgFile) (P : List String) :
    (fs.filter (fun f => f.path ∈ P)).length
      + (fs.filter (fun f => f.path ∉ P)).length = fs.length := by
  induction fs with
  | nil => rfl
  | cons f fs ih =>
    rw [List.filter_cons, List.filter_cons]
    by_cases h : f.path ∈ P
    · rw [if_pos (by simp [h]), if_neg (by simp [h])]
      simp only [List.length_cons]
      omega
    · rw [if_neg (by simp [h]), if_pos (by simp [h])]
      simp only [List.length_cons]
      omega

theorem filter_map_path_len (fs : List PkgFile) (P : List String) :
    ((fs.map (fun f => f.path)).filter (fun x => x ∈ P)).length
      = (fs.filter (fun f => f.path ∈ P)).length := by
  induction fs with
  | nil => rfl
  | cons f fs ih =>
    by_cases h : f.path ∈ P <;> simp [List.filter_cons, h, ih]

theorem sum_map_split {α : Type} (l : List α) (f g : α → Nat) :
    (l.map (fun a => f a + g a)).sum = (l.map f).sum + (l.map g).sum := by
  induction l with
  | nil => rfl
  | cons a l ih =>
    simp only [List.map_cons, List.sum_cons, ih]
    omega

theorem processBucketFiles_processed (t : String) :
    ∀ fs : List PkgFile, (processBucketFiles t fs).2
      = (fs.filter (fun f => (processRelatedFile f t).isSome)).map (fun f => f.path)
  | [] => rfl
  | f :: fs => by
    rw [processBucketFiles]
    cases h : processRelatedFile f t with
    | none => simp [h, List.filter_cons, processBucketFiles_processed t fs]
    | some c => simp [h, List.filter_cons, processBucketFiles_processed t fs]

theorem processAllRelatedFiles_sublist :
    ∀ bl : List (Bucket × List PkgFile),
      (processAllRelatedFiles bl).2.Sublist
        (bl.flatMap (fun pr => pr.2.map (fun f => f.path)))
  | [] => List.Sublist.refl _
  | (b, fs) :: rest => by
    rw [processAllRelatedFiles, List.flatMap_cons]
    dsimp only []
    by_cases hb : b = Bucket.main_iflow
    · rw [if_pos hb]
      exact (processAllRelatedFiles_sublist rest).trans (List.sublist_append_right _ _)
    · rw [if_neg hb]
      refine List.Sublist.append ?_ (processAllRelatedFiles_sublist rest)
      rw [processBucketFiles_processed]
      exact (List.filter_sublist fs).map _

theorem processAllRelatedFiles_mem_bucket :
    ∀ (bl : List (Bucket × List PkgFile)) (x : String),
      x ∈ (processAllRelatedFiles bl).2 →
        ∃ pr ∈ bl, pr.1 ≠ Bucket.main_iflow ∧ x ∈ pr.2.map (fun f => f.path)
  | [], x => by simp [processAllRelatedFiles]
  | (b, fs) :: rest, x => by
    intro hx
    rw [processAllRelatedFiles] at hx
    dsimp only [] at hx
    by_cases hb : b = Bucket.main_iflow
    · rw [if_pos hb] at hx
      obtain ⟨pr, h1, h2, h3⟩ := processAllRelatedFiles_mem_bucket rest x hx
      exact ⟨pr, List.mem_cons_of_mem _ h1, h2, h3⟩
    · rw [if_neg hb] at hx
      rcases List.mem_append.mp hx with hx | hx
      · refine ⟨(b, fs), List.mem_cons_self _ _, hb, ?_⟩
        rw [processBucketFiles_processed] at hx
        obtain ⟨g, hg, rfl⟩ := List.mem_map.mp hx
        exact List.mem_map_of_mem _ (List.mem_of_mem_filter hg)
      · obtain ⟨pr, h1, h2, h3⟩ := processAllRelatedFiles_mem_bucket rest x hx
        exact ⟨pr, List.mem_cons_of_mem _ h1, h2, h3⟩

theorem allFilesBuckets_flat (files : List PkgFile) :
    (allFilesBuckets files).flatMap (fun pr => pr.2.map (fun f => f.path))
      = discoveredPaths files := by
  rw [allFilesBuckets, discoveredPaths, List.flatMap_map]
  rfl

theorem bucketPaths_nodup (files : List PkgFile)
    (hnd : (files.map (fun f => f.path)).Nodup) (b : Bucket) :
    (bucketPaths files b).Nodup :=
  hnd.sublist ((List.filter_sublist files).map _)

theorem bucketPaths_disjoint_lemma (files : List PkgFile)
    (hnd : (files.map (fun f => f.path)).Nodup) {b b2 : Bucket} (hne : b ≠ b2) :
    List.Disjoint (bucketPaths files b) (bucketPaths files b2) := by
  intro x hx hx2
  obtain ⟨g, hg, rfl⟩ := List.mem_map.mp hx
  obtain ⟨g2, hg2, he⟩ := List.mem_map.mp hx2
  obtain ⟨hgf, hgc⟩ := List.mem_filter.mp hg
  obtain ⟨hgf2, hgc2⟩ := List.mem_filter.mp hg2
  have heq : g2 = g := List.inj_on_of_nodup_map hnd hgf2 hgf he
  subst heq
  simp only [beq_iff_eq] at hgc hgc2
  rw [hgc] at hgc2
  exact hne (Option.some.inj hgc2)

theorem discoveredPaths_nodup (files : List PkgFile)
    (hnd : (files.map (fun f => f.path)).Nodup) :
    (discoveredPaths files).Nodup := by
  rw [discoveredPaths, List.nodup_flatMap]
  refine ⟨fun b _ => bucketPaths_nodup files hnd b, ?_⟩
  have hbo : bucketOrder.Nodup := by decide
  exact hbo.imp (fun hne => bucketPaths_disjoint_lemma files hnd hne)

theorem mainPath_mem {files : List PkgFile} {f : PkgFile}
    (hmain : findMainIflow files = some f) :
    f.path ∈ bucketPaths files Bucket.main_iflow := by
  rw [findMainIflow] at hmain
  exact List.mem_map_of_mem _ (List.mem_of_mem_head? (Option.mem_def.mpr hmain))

theorem runChunker_processed_props (parse : String → Option XElem)
    (describe : String → String → String) (files : List PkgFile)
    (hnd : (files.map (fun f => f.path)).Nodup) :
    (runChunker parse describe files).2.Nodup ∧
      ∀ x ∈ (runChunker parse describe files).2, x ∈ discoveredPaths files := by
  have hrel_sub : (processAllRelatedFiles (allFilesBuckets files)).2.Sublist
      (discoveredPaths files) := by
    rw [← allFilesBuckets_flat files]
    exact processAllRelatedFiles_sublist _
  have hrelnd : (processAllRelatedFiles (allFilesBuckets files)).2.Nodup :=
    (discoveredPaths_nodup files hnd).sublist hrel_sub
  cases hmain : findMainIflow files with
  | none =>
    have heq : (runChunker parse describe files).2
        = (processAllRelatedFiles (allFilesBuckets files)).2 := by
      simp [runChunker, hmain]
    rw [heq]
    exact ⟨hrelnd, fun x hx => hrel_sub.mem hx⟩
  | some f =>
    have heq : (runChunker parse describe files).2
        = f.path :: (processAllRelatedFiles (allFilesBuckets files)).2 := by
      simp [runChunker, hmain]
    rw [heq]
    have hnomem : f.path ∉ (processAllRelatedFiles (allFilesBuckets files)).2 := by
      intro hx
      obtain ⟨pr, hpr, hne, hmem⟩ := processAllRelatedFiles_mem_bucket _ _ hx
      obtain ⟨b, _, rfl⟩ := List.mem_map.mp hpr
      have hne2 : b ≠ Bucket.main_iflow := hne
      have hmem2 : f.path ∈ bucketPaths files b := hmem
      exact bucketPaths_disjoint_lemma files hnd hne2 hmem2 (mainPath_mem hmain)
    constructor
    · exact List.nodup_cons.mpr ⟨hnomem, hrelnd⟩
    · intro x hx
      rcases List.mem_cons.mp hx with rfl | hx
      · rw [discoveredPaths]
        exact List.mem_flatMap.mpr ⟨Bucket.main_iflow, mem_bucketOrder _, mainPath_mem hmain⟩
      · exact hrel_sub.mem hx

theorem nodup_filter_mem_length {l P : List String} (hl : l.Nodup) (hP : P.Nodup)
    (hsub : ∀ x ∈ P, x ∈ l) : (l.filter (fun x => x ∈ P)).length = P.length := by
  rw [← List.toFinset_card_of_nodup (hl.filter _), ← List.toFinset_card_of_nodup hP]
  congr 1
  ext x
  simp only [List.mem_toFinset, List.mem_filter, decide_eq_true_eq]
  exact ⟨fun h => h.2, fun h => ⟨hsub x h, h⟩⟩

theorem filter_flatMap {α β : Type} (l : List α) (g : α → List β) (p : β → Bool) :
    (l.flatMap g).filter p = l.flatMap (fun a => (g a).filter p) := by
  induction l with
  | nil => rfl
  | cons a l ih => simp [List.flatMap_cons, List.filter_append, ih]

theorem flatMap_eq_single {α β : Type} (g : α → List β) (b : α) :
    ∀ l : List α, b ∈ l → l.Nodup → (∀ a ∈ l, a ≠ b → g a = []) → l.flatMap g = g b
  | [], hb, _, _ => absurd hb (List.not_mem_nil b)
  | a :: t, hb, hnd, hz => by
    rw [List.flatMap_cons]
    rcases List.mem_cons.mp hb with rfl | hb2
    · have ht : t.flatMap g = [] := by
        rw [List.flatMap_eq_nil_iff]
        intro x hx
        exact hz x (List.mem_cons_of_mem _ hx) (fun he => (List.nodup_cons.mp hnd).1 (he ▸ hx))
      rw [ht, List.append_nil]
    · have ha : g a = [] :=
        hz a (List.mem_cons_self _ _) (fun he => (List.nodup_cons.mp hnd).1 (he ▸ hb2))
      rw [ha, List.nil_append]
      exact flatMap_eq_single g b t hb2 (List.nodup_cons.mp hnd).2
        (fun x hx => hz x (List.mem_cons_of_mem _ hx))

theorem missing_cat_count (files : List PkgFile) (P : List String)
    (hnd : (files.map (fun f => f.path)).Nodup) (b : Bucket) :
    (((allFilesBuckets files).flatMap (fun pr =>
        (pr.2.filter (fun f => f.path ∉ P)).map (fun f => f.path))).filter
          (fun m => m ∈ bucketPaths files b)).length
      = ((discoverBucket files b).filter (fun f => f.path ∉ P)).length := by
  have hz : ∀ a ∈ bucketOrder, a ≠ b →
      ((((discoverBucket files a).filter (fun f => f.path ∉ P)).map (fun f => f.path)).filter
        (fun m => m ∈ bucketPaths files b)) = [] := by
    intro a _ hab
    rw [List.filter_eq_nil_iff]
    intro x hx
    obtain ⟨g, hg, rfl⟩ := List.mem_map.mp hx
    have hxa : g.path ∈ bucketPaths files a :=
      List.mem_map_of_mem _ (List.mem_of_mem_filter hg)
    exact fun hxb =>
      bucketPaths_disjoint_lemma files hnd hab hxa (by simpa using hxb)
  have hall : ∀ x ∈ ((discoverBucket files b).filter
      (fun f => f.path ∉ P)).map (fun f => f.path),
      (decide (x ∈ bucketPaths files b)) = true := by
    intro x hx
    obtain ⟨g, hg, rfl⟩ := List.mem_map.mp hx
    exact decide_eq_true (List.mem_map_of_mem _ (List.mem_of_mem_filter hg))
  rw [filter_flatMap, allFilesBuckets, List.flatMap_map]
  rw [flatMap_eq_single _ b bucketOrder (mem_bucketOrder b) (by decide) hz]
  rw [List.filter_eq_self.mpr hall, List.length_map]

theorem verifyCoverage_global (files : List PkgFile) (P : List String)
    (hnd : (files.map (fun f => f.path)).Nodup) (hPnd : P.Nodup)
    (hPsub : ∀ x ∈ P, x ∈ discoveredPaths files) :
    P.length
      + ((allFilesBuckets files).flatMap (fun pr =>
          (pr.2.filter (fun f => f.path ∉ P)).map (fun f => f.path))).length
      = ((allFilesBuckets files).map (fun pr => pr.2.length)).sum := by
  have hmlen : ((allFilesBuckets files).flatMap (fun pr =>
      (pr.2.filter (fun f => f.path ∉ P)).map (fun f => f.path))).length
      = ((allFilesBuckets files).map (fun pr =>
          (pr.2.filter (fun f => f.path ∉ P)).length)).sum := by
    rw [List.length_flatMap]
    exact congrArg List.sum (List.map_congr_left (fun pr _ => by simp))
  have hinlen : ((allFilesBuckets files).map (fun pr =>
      (pr.2.filter (fun f => f.path ∈ P)).length)).sum = P.length := by
    have h1 : ((allFilesBuckets files).flatMap (fun pr =>
        (pr.2.map (fun f => f.path)).filter (fun x => x ∈ P))).length
        = ((allFilesBuckets files).map (fun pr =>
            (pr.2.filter (fun f => f.path ∈ P)).length)).sum := by
      rw [List.length_flatMap]
      exact congrArg List.sum (List.map_congr_left (fun pr _ => by
        show ((pr.2.map (fun f => f.path)).filter (fun x => x ∈ P)).length = _
        rw [filter_map_path_len]))
    rw [← h1]
    have h2 : (allFilesBuckets files).flatMap (fun pr =>
        (pr.2.map (fun f => f.path)).filter (fun x => x ∈ P))
        = (discoveredPaths files).filter (fun x => x ∈ P) := by
      rw [← allFilesBuckets_flat files, filter_flatMap]
    rw [h2]
    exact nodup_filter_mem_length (discoveredPaths_nodup files hnd) hPnd hPsub
  have hsplit : ((allFilesBuckets files).map (fun pr => pr.2.length)).sum
      = ((allFilesBuckets files).map (fun pr =>
          (pr.2.filter (fun f => f.path ∈ P)).length)).sum
        + ((allFilesBuckets files).map (fun pr =>
            (pr.2.filter (fun f => f.path ∉ P)).length)).sum := by
    rw [← sum_map_split]
    exact congrArg List.sum
      (List.map_congr_left (fun pr _ => (coverage_cat_split pr.2 P).symm))
  omega

set_option maxHeartbeats 1000000 in
/-- C5: the coverage report satisfies, for every file category,
`processed + (that category's entries in missing_files) = total`;
globally `total_files_processed + |missing_files| =
total_files_discovered`; and the overall percentage is exactly `100`
iff the missing list is empty.  (The float percentage is modelled as an
exact rational.) -/
theorem coverage_report_arithmetic (parse : String → Option XElem)
    (describe : String → String → String) (files : List PkgFile)
    (hnd : (files.map (fun f => f.path)).Nodup) :
    (∀ b : Bucket, ∃ e : CoverageBreakdownEntry,
        (bucketName b, e) ∈ (processCompleteIflowPackage parse describe
            files).coverage_report.file_type_breakdown ∧
          e.total = (discoverBucket files b).length ∧
          e.processed + ((processCompleteIflowPackage parse describe
              files).coverage_report.missing_files.filter
                (fun m => m ∈ bucketPaths files b)).length = e.total)
    ∧ (processCompleteIflowPackage parse describe files).coverage_report.total_files_processed
        + (processCompleteIflowPackage parse describe
            files).coverage_report.missing_files.length
      = (processCompleteIflowPackage parse describe
          files).coverage_report.total_files_discovered
    ∧ ((processCompleteIflowPackage parse describe
          files).coverage_report.coverage_percentage = 100
        ↔ (processCompleteIflowPackage parse describe
            files).coverage_report.missing_files = []) := by
  obtain ⟨hPnd, hPsub⟩ := runChunker_processed_props parse describe files hnd
  have hcov : (processCompleteIflowPackage parse describe files).coverage_report
      = verifyCompleteCoverage (allFilesBuckets files)
          (runChunker parse describe files).2 := rfl
  rw [hcov]
  have hmiss : (verifyCompleteCoverage (allFilesBuckets files)
      (runChunker parse describe files).2).missing_files
      = (allFilesBuckets files).flatMap (fun pr =>
          (pr.2.filter (fun f => f.path ∉ (runChunker parse describe files).2)).map
            (fun f => f.path)) := rfl
  have hglobal := verifyCoverage_global files (runChunker parse describe files).2 hnd hPnd hPsub
  refine ⟨?_, ?_, ?_⟩
  · intro b
    refine ⟨⟨(discoverBucket files b).length,
      ((discoverBucket files b).filter
        (fun f => f.path ∈ (runChunker parse describe files).2)).length,
      if 0 < (discoverBucket files b).length then
        (((discoverBucket files b).filter
            (fun f => f.path ∈ (runChunker parse describe files).2)).length : Rat)
          / ((discoverBucket files b).length : Rat) * 100
      else 100⟩, ?_, rfl, ?_⟩
    · have hbd : (verifyCompleteCoverage (allFilesBuckets files)
          (runChunker parse describe files).2).file_type_breakdown
          = (allFilesBuckets files).map (fun pr =>
              ((bucketName pr.1,
                { total := pr.2.length
                , processed := (pr.2.filter
                    (fun f => f.path ∈ (runChunker parse describe files).2)).length
                , coverage := if 0 < pr.2.length then
                    ((pr.2.filter
                      (fun f => f.path ∈ (runChunker parse describe files).2)).length : Rat)
                      / (pr.2.length : Rat) * 100
                  else 100 }) : String × CoverageBreakdownEntry)) := rfl
      rw [hbd, allFilesBuckets, List.map_map]
      exact List.mem_map_of_mem _ (mem_bucketOrder b)
    · rw [hmiss]
      rw [missing_cat_count files (runChunker parse describe files).2 hnd b]
      exact coverage_cat_split (discoverBucket files b) (runChunker parse describe files).2
  · rw [hmiss]
    exact hglobal
  · rw [hmiss]
    have hpct : (verifyCompleteCoverage (allFilesBuckets files)
        (runChunker parse describe files).2).coverage_percentage
        = if 0 < ((allFilesBuckets files).map (fun pr => pr.2.length)).sum then
            ((runChunker parse describe files).2.length : Rat)
              / (((((allFilesBuckets files).map (fun pr => pr.2.length)).sum : Nat)) : Rat) * 100
          else 100 := rfl
    rw [hpct]
    by_cases htot : 0 < ((allFilesBuckets files).map (fun pr => pr.2.length)).sum
    · rw [if_pos htot]
      have hT0 : ((((allFilesBuckets files).map (fun pr => pr.2.length)).sum : Nat) : Rat) ≠ 0 :=
        Nat.cast_ne_zero.mpr (Nat.pos_iff_ne_zero.mp htot)
      constructor
      · intro hpe
        have h2 : ((runChunker parse describe files).2.length : Rat)
            / (((((allFilesBuckets files).map (fun pr => pr.2.length)).sum : Nat)) : Rat) = 1 := by
          have h3 : ((runChunker parse describe files).2.length : Rat)
              / (((((allFilesBuckets files).map (fun pr => pr.2.length)).sum : Nat)) : Rat) * 100
              = 1 * 100 := by
            rw [hpe]; norm_num
          exact mul_right_cancel₀ (by norm_num) h3
        have h4 : (runChunker parse describe files).2.length
            = ((allFilesBuckets files).map (fun pr => pr.2.length)).sum :=
          Nat.cast_inj.mp ((div_eq_one_iff_eq hT0).mp h2)
        have h5 : ((allFilesBuckets files).flatMap (fun pr =>
            (pr.2.filter (fun f => f.path ∉ (runChunker parse describe files).2)).map
              (fun f => f.path))).length = 0 := by omega
        exact List.length_eq_zero.mp h5
      · intro hme
        rw [hme] at hglobal
        simp only [List.length_nil, Nat.add_zero] at hglobal
        rw [hglobal, div_self hT0, one_mul]
    · rw [if_neg htot]
      have hT : ((allFilesBuckets files).map (fun pr => pr.2.length)).sum = 0 := by omega
      have hms : (allFilesBuckets files).flatMap (fun pr =>
          (pr.2.filter (fun f => f.path ∉ (runChunker parse describe files).2)).map
            (fun f => f.path)) = [] := by
        rw [List.flatMap_eq_nil_iff]
        intro pr hpr
        have h0 : pr.2.length = 0 :=
          List.sum_eq_zero_iff.mp hT _ (List.mem_map_of_mem _ hpr)
        rw [List.eq_nil_of_length_eq_zero h0]
        rfl
      exact ⟨fun _ => hms, fun _ => rfl⟩

/-- Witness for C5 on `samplePkg`. -/
theorem coverage_report_arithmetic_witness :
    (∀ b : Bucket, ∃ e : CoverageBreakdownEntry,
        (bucketName b, e) ∈ (processCompleteIflowPackage sampleParse sampleDescribe
            samplePkg).coverage_report.file_type_breakdown ∧
          e.total = (discoverBucket samplePkg b).length ∧
          e.processed + ((processCompleteIflowPackage sampleParse sampleDescribe
              samplePkg).coverage_report.missing_files.filter
                (fun m => m ∈ bucketPaths samplePkg b)).length = e.total)
    ∧ (processCompleteIflowPackage sampleParse sampleDescribe
          samplePkg).coverage_report.total_files_processed
        + (processCompleteIflowPackage sampleParse sampleDescribe
            samplePkg).coverage_report.missing_files.length
      = (processCompleteIflowPackage sampleParse sampleDescribe
          samplePkg).coverage_report.total_files_discovered
    ∧ ((processCompleteIflowPackage sampleParse sampleDescribe
          samplePkg).coverage_report.coverage_percentage = 100
        ↔ (processCompleteIflowPackage sampleParse sampleDescribe
            samplePkg).coverage_report.missing_files = []) :=
  coverage_report_arithmetic sampleParse sampleDescribe samplePkg (by decide)

end IFlowChunker
